import Mathlib

/-!
Verification of the procedural terrain core of the math-function terrain
generator (src/script.js and src/unnamed/part_000).

Conventions of the shallow embedding:
* JavaScript numbers are modelled as rationals (`ℚ`); `Math.floor` is `⌊·⌋`.
* 32-bit integer operations (`x & 0xFFFFFFFF`, `^`, `Math.imul`, `>>> 0`)
  are modelled on unsigned 32-bit patterns, i.e. naturals reduced mod 2^32;
  a signed JS integer `x` has bit pattern `(x % 2^32).toNat`.
* A compiled height function is `ℚ → ℚ → Option ℚ`; `none` models an
  invocation that throws or returns a non-finite value (both are coerced
  to height 0 by the terrain loop, exactly as the source does).
-/

/-! ## Biome classification (src/script.js lines 293-304) -/

inductive Biome where
  | WATER | SAND | GRASS | STONE | SNOW | ALIEN | LAVA
deriving DecidableEq, Repr

/-- Biome determination exactly as in `updateTerrain`
(src/script.js lines 293-304): the if/else-if ladder on the truncated
`surfaceY = Math.floor(y)`, followed by the two override ifs on the raw `y`. -/
def classify (y : ℚ) : Biome :=
  let surfaceY : ℤ := ⌊y⌋
  let biome : Biome :=
    if surfaceY < -2 then .WATER
    else if surfaceY < 2 then .SAND
    else if surfaceY < 15 then .GRASS
    else if surfaceY < 40 then .STONE
    else .SNOW
  let biome := if y > 60 then .ALIEN else biome
  let biome := if y < -30 then .LAVA else biome
  biome

/-- The base ladder of the biome classifier as worded by the spec (§4.5),
as a function of the integer-truncated height. -/
def baseLadder (h : ℤ) : Biome :=
  if h < -2 then .WATER
  else if h < 2 then .SAND
  else if h < 15 then .GRASS
  else if h < 40 then .STONE
  else .SNOW

/-- The classifier as worded by the spec (§4.5): base ladder on `⌊h⌋`,
then the two overrides evaluated on the untruncated `h`, overwriting the
ladder result. -/
def classifySpec (h : ℚ) : Biome :=
  let base := baseLadder ⌊h⌋
  let withOverride1 := if h > 60 then .ALIEN else base
  if h < -30 then .LAVA else withOverride1

/-! ## Hash (src/script.js lines 51-62) -/

/-- Unsigned 32-bit pattern of a JS integer (the effect of `x & 0xFFFFFFFF`
followed by the usual two's-complement reading of JS bitwise results). -/
def toUInt32bits (x : ℤ) : ℕ := (x % (2 ^ 32 : ℤ)).toNat

/-- `Math.imul`: low 32 bits of the product. -/
def imul32 (a b : ℕ) : ℕ := a * b % 2 ^ 32

/-- The integer mixing steps of `Hash.intHash` (src/script.js lines 53-61):
FNV-1a style — start from basis 0x811c9dc5, xor in x, multiply by prime
0x01000193 (via `Math.imul`), xor in z, multiply again; `h >>> 0` reads the
result as the unsigned 32-bit value, which is this natural number. -/
def intHashMix (x z : ℤ) : ℕ :=
  let h0 : ℕ := 0x811c9dc5
  let h1 := h0 ^^^ toUInt32bits x
  let h2 := imul32 h1 0x01000193
  let h3 := h2 ^^^ toUInt32bits z
  imul32 h3 0x01000193

/-- `Hash.intHash` (src/script.js lines 53-62): the unsigned 32-bit mix
divided by 4294967296 = 2^32. -/
def intHash (x z : ℤ) : ℚ := (intHashMix x z : ℚ) / 4294967296

/-! ## Fractal octave combinator `Ctx.octaved` (src/script.js lines 100-107)

`Noise.simplex` is seeded from `Math.random()` at startup, so the base
field is modelled as a parameter `sample : ℚ → ℚ → ℚ`; `octaved` itself is
deterministic given that field. -/

/-- The loop body of `Ctx.octaved`: iterate
`total += sample(x*freq, z*freq)*amp; max += amp; amp *= per; freq *= 2`
for the given number of iterations, returning the final `(total, max)`. -/
def octavedAux (sample : ℚ → ℚ → ℚ) (x z per : ℚ) :
    ℕ → ℚ → ℚ → ℚ → ℚ → ℚ × ℚ
  | 0, total, _amp, _freq, maxA => (total, maxA)
  | n + 1, total, amp, freq, maxA =>
      octavedAux sample x z per n (total + sample (x * freq) (z * freq) * amp)
        (amp * per) (freq * 2) (maxA + amp)

/-- `Ctx.octaved` (src/script.js lines 100-107).  The JS `oct || 4` and
`per || 0.5` substitute the defaults whenever the argument is falsy (0 for
numbers); the loop `for(i=0; i<octE; i++)` runs `⌈octE⌉` times for positive
`octE` (and 0 times otherwise, which `Int.toNat` gives for free). -/
def octaved (sample : ℚ → ℚ → ℚ) (x z oct per : ℚ) : ℚ :=
  let octE := if oct = 0 then 4 else oct
  let perE := if per = 0 then 1 / 2 else per
  let r := octavedAux sample x z perE (⌈octE⌉.toNat) 0 1 1 0
  r.1 / r.2

/-! ## Claim theorems for the components above -/

/-- Claim C1: for every real height h, `classify` applies the base ladder
to `⌊h⌋` (h<−2 WATER, −2≤h<2 SAND, 2≤h<15 GRASS, 15≤h<40 STONE, h≥40 SNOW)
and then the two overrides evaluated on the untruncated h overwrite the
result (h>60 ALIEN, h<−30 LAVA); in particular classify(−3)=WATER,
classify(0)=SAND, classify(10)=GRASS, classify(20)=STONE, classify(50)=SNOW,
classify(65)=ALIEN, classify(−35)=LAVA. -/
theorem classify_matches_spec_ladder_and_overrides :
    (∀ h : ℚ, classify h = classifySpec h) ∧
    classify (-3) = .WATER ∧ classify 0 = .SAND ∧ classify 10 = .GRASS ∧
    classify 20 = .STONE ∧ classify 50 = .SNOW ∧ classify 65 = .ALIEN ∧
    classify (-35) = .LAVA := by
  refine ⟨fun h => ?_, ?_, ?_, ?_, ?_, ?_, ?_, ?_⟩
  · simp only [classify, classifySpec, baseLadder]
  all_goals norm_num [classify]

/-- Claim C5: `Hash.intHash` is a pure function of its two integer
arguments (repeated calls agree), and its value is the final unsigned
32-bit mix divided by 2^32, hence always in the half-open interval [0,1). -/
theorem intHash_deterministic_in_unit_interval :
    (∀ x z : ℤ, intHash x z = intHash x z) ∧
    (∀ x z : ℤ, intHash x z = (intHashMix x z : ℚ) / 2 ^ 32 ∧
      intHashMix x z < 2 ^ 32) ∧
    (∀ x z : ℤ, 0 ≤ intHash x z ∧ intHash x z < 1) := by
  have hmix : ∀ x z : ℤ, intHashMix x z < 2 ^ 32 := by
    intro x z
    simp only [intHashMix, imul32]
    exact Nat.mod_lt _ (by norm_num)
  refine ⟨fun _ _ => rfl, fun x z => ⟨by norm_num [intHash], hmix x z⟩, fun x z => ⟨?_, ?_⟩⟩
  · exact div_nonneg (by positivity) (by norm_num)
  · rw [intHash, div_lt_one (by norm_num)]
    have := hmix x z
    exact_mod_cast by exact_mod_cast (by exact_mod_cast this : (intHashMix x z : ℚ) < (2 ^ 32 : ℕ))

/-- Claim C7: with a single octave the fractal combinator degenerates to
the base field: `octaved(x, z, 1, p) = sample(x, z)` for every persistence
p (the loop runs once with amplitude 1 and frequency 1, and the total
amplitude normalizer is 1). -/
theorem octaved_single_octave_is_sample (sample : ℚ → ℚ → ℚ) (x z p : ℚ) :
    octaved sample x z 1 p = sample x z := by
  simp [octaved, octavedAux]

/-- Claim C10: the octave combinator substitutes its defaults for falsy
arguments — persistence 0 behaves as persistence 0.5, and octave count 0
behaves as octave count 4. -/
theorem octaved_falsy_defaults (sample : ℚ → ℚ → ℚ) (x z : ℚ) :
    (∀ oct : ℚ, octaved sample x z oct 0 = octaved sample x z oct (1 / 2)) ∧
    (∀ per : ℚ, octaved sample x z 0 per = octaved sample x z 4 per) := by
  constructor <;> intro w <;> norm_num [octaved]

/-! ## Terrain window (src/script.js lines 200-205 and 256-337)

A compiled height function is `ℚ → ℚ → Option ℚ`; `none` models a call that
throws or returns a non-finite number (the loop coerces both to height 0).
THREE.Color values are renderer constants outside the core, so a voxel
color is modelled by which named color is copied and whether the 0.85
darkening multiplier was applied. -/

abbrev HeightFn := ℚ → ℚ → Option ℚ

/-- `const GRID = 160` (src/script.js line 203). -/
def GRID : ℕ := 160

/-- `const LAYERS = 4` (src/script.js line 204). -/
def LAYERS : ℕ := 4

inductive ColorName where
  | water | sand | grass | dirt | stone | snow | alien | lava
deriving DecidableEq, Repr

/-- Surface-layer color per biome (src/script.js lines 314-321). -/
def topColor : Biome → ColorName
  | .WATER => .water
  | .SAND => .sand
  | .GRASS => .grass
  | .STONE => .stone
  | .SNOW => .snow
  | .ALIEN => .alien
  | .LAVA => .lava

/-- Lower-layer color (src/script.js line 323): dirt under grass, stone
otherwise. -/
def underColor (b : Biome) : ColorName := if b = .GRASS then .dirt else .stone

/-- One emitted voxel descriptor: instance position plus resolved color. -/
structure Desc where
  wx : ℤ
  y : ℤ
  wz : ℤ
  color : ColorName
  darkened : Bool
deriving DecidableEq, Repr

/-- The per-column height evaluation (src/script.js lines 287-291):
`y = compiledFunc(...)` with any throwing or non-finite result (both
modelled by `none`) replaced by 0. -/
def columnHeight (f : HeightFn) (wx wz : ℚ) : ℚ :=
  match f wx wz with
  | some v => v
  | none => 0

/-- The descriptor written for layer `d` of the column at `(wx, wz)`
(src/script.js lines 293-330): position `(wx, surfaceY - d, wz)`, top
layer colored by biome, lower layers by the under-color with the 0.85
darkening applied. -/
def layerDesc (f : HeightFn) (wx wz : ℤ) (d : ℕ) : Desc :=
  let y := columnHeight f wx wz
  let surfaceY := ⌊y⌋
  let biome := classify y
  { wx := wx, y := surfaceY - d, wz := wz,
    color := if d = 0 then topColor biome else underColor biome,
    darkened := decide (0 < d) }

/-- All `layerCount` stacked descriptors of one column
(src/script.js lines 307-331). -/
def columnDescs (f : HeightFn) (wx wz : ℤ) (layers : ℕ) : List Desc :=
  (List.range layers).map (layerDesc f wx wz)

/-- The full ordered descriptor list of one refresh
(src/script.js lines 275-333): outer loop over i, inner loop over j, with
world coordinates `cx - ⌊grid/2⌋ + i` and `cz - ⌊grid/2⌋ + j`, descriptors
written at consecutive instance indices. -/
def emitWindow (f : HeightFn) (cx cz : ℤ) (grid layers : ℕ) : List Desc :=
  let offset : ℤ := (grid : ℤ) / 2
  (List.range grid).flatMap fun i =>
    (List.range grid).flatMap fun j =>
      columnDescs f (cx - offset + i) (cz - offset + j) layers

/-- Host state around `updateTerrain`: the compiled function slot, the
last-refreshed center (src/script.js lines 237-239) and the descriptor
store written through `instMesh` (line 310/329). -/
structure TerrainState where
  compiledFunc : Option HeightFn
  lastUpdateX : ℤ
  lastUpdateZ : ℤ
  out : List Desc

/-- `updateTerrain` (src/script.js lines 256-337): bail out when no
compiled function; floor the reference point; no-op unless forced or one
axis delta reaches 2; otherwise record the center and overwrite the whole
descriptor list. -/
def updateTerrain (s : TerrainState) (px pz : ℚ) (force : Bool) : TerrainState :=
  match s.compiledFunc with
  | none => s
  | some f =>
    let cx := ⌊px⌋
    let cz := ⌊pz⌋
    if force = false ∧ |cx - s.lastUpdateX| < 2 ∧ |cz - s.lastUpdateZ| < 2 then s
    else { s with lastUpdateX := cx, lastUpdateZ := cz,
                  out := emitWindow f cx cz GRID LAYERS }

/-- Index-to-descriptor mapping claimed by the spec for a refresh: index
`k` holds layer `k % (G·L) % L` of the column with grid offsets
`i = k / (G·L)` and `j = k % (G·L) / L`. -/
def windowIndexDesc (f : HeightFn) (cx cz : ℤ) (k : ℕ) : Desc :=
  layerDesc f (cx - (GRID : ℤ) / 2 + (k / (GRID * LAYERS) : ℕ))
    (cz - (GRID : ℤ) / 2 + ((k % (GRID * LAYERS) / LAYERS : ℕ)))
    (k % (GRID * LAYERS) % LAYERS)

/-! ### List helper lemmas -/

lemma length_flatMap_const {α : Type} (F : ℕ → List α) (n c : ℕ)
    (h : ∀ i, i < n → (F i).length = c) :
    ((List.range n).flatMap F).length = n * c := by
  induction n with
  | zero => simp
  | succ m ih =>
    rw [List.range_succ, List.flatMap_append, List.length_append,
      ih (fun i hi => h i (Nat.lt_succ_of_lt hi))]
    simp [h m (Nat.lt_succ_self m), Nat.succ_mul]

lemma getElem?_flatMap_const {α : Type} (F : ℕ → List α) (n c k : ℕ)
    (h : ∀ i, i < n → (F i).length = c) (hk : k < n * c) :
    ((List.range n).flatMap F)[k]? = (F (k / c))[k % c]? := by
  induction n with
  | zero => omega
  | succ m ih =>
    rw [List.range_succ, List.flatMap_append]
    have hlen : ((List.range m).flatMap F).length = m * c :=
      length_flatMap_const F m c (fun i hi => h i (Nat.lt_succ_of_lt hi))
    have hsm : (m + 1) * c = m * c + c := Nat.succ_mul m c
    by_cases hk2 : k < m * c
    · rw [List.getElem?_append_left (by omega)]
      exact ih (fun i hi => h i (Nat.lt_succ_of_lt hi)) hk2
    · rw [List.getElem?_append_right (by omega), hlen]
      have hdiv : k / c = m :=
        Nat.div_eq_of_lt_le (by omega) (by rw [Nat.succ_mul]; omega)
      have hmod : k % c = k - m * c := by
        have h2 := Nat.div_add_mod k c
        rw [hdiv] at h2
        have hcm : c * m = m * c := Nat.mul_comm c m
        omega
      rw [hdiv, hmod]
      simp

lemma columnDescs_getElem? (f : HeightFn) (wx wz : ℤ) (layers d : ℕ)
    (hd : d < layers) :
    (columnDescs f wx wz layers)[d]? = some (layerDesc f wx wz d) := by
  simp [columnDescs, List.getElem?_map, List.getElem?_range hd]

/-- Helper: a refresh always emits exactly `grid * grid * layers`
descriptors, regardless of the height function's behavior. -/
lemma emitWindow_length (f : HeightFn) (cx cz : ℤ) (grid layers : ℕ) :
    (emitWindow f cx cz grid layers).length = grid * grid * layers := by
  unfold emitWindow
  rw [length_flatMap_const _ grid (grid * layers), Nat.mul_assoc]
  intro i _
  rw [length_flatMap_const _ grid layers]
  intro j _
  simp [columnDescs]

/-- Claim C3: a column whose height evaluation fails (throws or is
non-finite, modelled by `none`) uses height exactly 0 and surface level 0
and emits the same descriptors as a column of constant height 0; a refresh
always emits its full complement of descriptors whatever the function
does; and a column's descriptors depend only on the function's value at
that column, so no other column is affected. -/
theorem eval_failure_isolated_per_column :
    (∀ (f : HeightFn) (wx wz : ℤ) (layers : ℕ), f wx wz = none →
      columnHeight f wx wz = 0 ∧ (layerDesc f wx wz 0).y = 0 ∧
      columnDescs f wx wz layers = columnDescs (fun _ _ => some 0) wx wz layers) ∧
    (∀ (f : HeightFn) (cx cz : ℤ) (grid layers : ℕ),
      (emitWindow f cx cz grid layers).length = grid * grid * layers) ∧
    (∀ (f g : HeightFn) (wx wz : ℤ) (layers : ℕ), f wx wz = g wx wz →
      columnDescs f wx wz layers = columnDescs g wx wz layers) := by
  refine ⟨fun f wx wz layers hnone => ⟨?_, ?_, ?_⟩,
    fun f cx cz grid layers => emitWindow_length f cx cz grid layers,
    fun f g wx wz layers hfg => ?_⟩
  · simp [columnHeight, hnone]
  · simp [layerDesc, columnHeight, hnone]
  · simp [columnDescs, layerDesc, columnHeight, hnone]
  · simp [columnDescs, layerDesc, columnHeight, hfg]

/-- Witness for C3 at concrete inputs: an always-failing function on the
column (5,7) with 4 layers, and a 2×2 window with 3 layers. -/
theorem eval_failure_isolated_per_column_witness :
    ((fun _ _ => none : HeightFn) 5 7 = none) ∧
    columnHeight (fun _ _ => none) 5 7 = 0 ∧
    columnDescs (fun _ _ => none) 5 7 4 = columnDescs (fun _ _ => some 0) 5 7 4 ∧
    (emitWindow (fun _ _ => none) 0 0 2 3).length = 2 * 2 * 3 := by
  refine ⟨rfl, ?_, ?_, ?_⟩
  · exact (eval_failure_isolated_per_column.1 _ 5 7 4 rfl).1
  · exact (eval_failure_isolated_per_column.1 _ 5 7 4 rfl).2.2
  · exact eval_failure_isolated_per_column.2.1 _ 0 0 2 3

/-- Claim C4: with `force = false`, if both axis deltas between the
floored reference point and the last-refreshed center are strictly below
2 then `updateTerrain` is a no-op (state unchanged, nothing emitted); if
either delta reaches 2 (and a compiled function is in effect) it performs
a full refresh and records the new center. -/
theorem refresh_hysteresis :
    (∀ (s : TerrainState) (px pz : ℚ),
      |⌊px⌋ - s.lastUpdateX| < 2 → |⌊pz⌋ - s.lastUpdateZ| < 2 →
      updateTerrain s px pz false = s) ∧
    (∀ (s : TerrainState) (px pz : ℚ) (f : HeightFn),
      s.compiledFunc = some f →
      (2 ≤ |⌊px⌋ - s.lastUpdateX| ∨ 2 ≤ |⌊pz⌋ - s.lastUpdateZ|) →
      updateTerrain s px pz false =
        { s with lastUpdateX := ⌊px⌋, lastUpdateZ := ⌊pz⌋,
                 out := emitWindow f ⌊px⌋ ⌊pz⌋ GRID LAYERS }) := by
  constructor
  · intro s px pz h1 h2
    rcases hc : s.compiledFunc with _ | f
    · simp [updateTerrain, hc]
    · simp [updateTerrain, hc, h1, h2]
  · intro s px pz f hc hor
    have hguard : ¬(True ∧ |⌊px⌋ - s.lastUpdateX| < 2 ∧
        |⌊pz⌋ - s.lastUpdateZ| < 2) := by
      rintro ⟨-, hA, hB⟩
      rcases hor with h | h <;> omega
    simp only [updateTerrain, hc]
    rw [if_neg hguard]

/-- Witness for C4: reference point 1 (delta 1 from center 0) is a no-op,
reference point 3 (delta 3) performs the refresh. -/
theorem refresh_hysteresis_witness :
    (|⌊(1 : ℚ)⌋ - (0 : ℤ)| < 2 ∧
      updateTerrain ⟨some (fun _ _ => some 1), 0, 0, []⟩ 1 1 false =
        (⟨some (fun _ _ => some 1), 0, 0, []⟩ : TerrainState)) ∧
    (2 ≤ |⌊(3 : ℚ)⌋ - (0 : ℤ)| ∧
      updateTerrain ⟨some (fun _ _ => some 1), 0, 0, []⟩ 3 3 false =
        { compiledFunc := some (fun _ _ => some 1), lastUpdateX := ⌊(3 : ℚ)⌋,
          lastUpdateZ := ⌊(3 : ℚ)⌋,
          out := emitWindow (fun _ _ => some 1) ⌊(3 : ℚ)⌋ ⌊(3 : ℚ)⌋ GRID LAYERS }) := by
  have h1 : |⌊(1 : ℚ)⌋ - (0 : ℤ)| < 2 := by simp
  have h3 : 2 ≤ |⌊(3 : ℚ)⌋ - (0 : ℤ)| := by simp
  exact ⟨⟨h1, refresh_hysteresis.1 _ 1 1 h1 h1⟩,
    ⟨h3, refresh_hysteresis.2 _ 3 3 _ rfl (Or.inl h3)⟩⟩

/-- Claim C8: every refresh that passes the guard emits exactly
GRID·GRID·LAYERS descriptors at consecutive indices 0..N−1, and index k
always holds layer (k % (GRID·LAYERS)) % LAYERS of the column with grid
offsets i = k / (GRID·LAYERS), j = (k % (GRID·LAYERS)) / LAYERS — i.e. the
row-major iteration order, identical on every refresh. -/
theorem refresh_emits_full_ordered_window :
    (∀ (f : HeightFn) (cx cz : ℤ),
      (emitWindow f cx cz GRID LAYERS).length = GRID * GRID * LAYERS ∧
      ∀ k, k < GRID * GRID * LAYERS →
        (emitWindow f cx cz GRID LAYERS)[k]? = some (windowIndexDesc f cx cz k)) ∧
    (∀ (s : TerrainState) (px pz : ℚ) (force : Bool) (f : HeightFn),
      s.compiledFunc = some f →
      (force = true ∨ 2 ≤ |⌊px⌋ - s.lastUpdateX| ∨ 2 ≤ |⌊pz⌋ - s.lastUpdateZ|) →
      (updateTerrain s px pz force).out = emitWindow f ⌊px⌋ ⌊pz⌋ GRID LAYERS) := by
  constructor
  · intro f cx cz
    refine ⟨emitWindow_length f cx cz GRID LAYERS, fun k hk => ?_⟩
    have hinner : ∀ wx : ℤ, ∀ i, i < GRID →
        ((List.range GRID).flatMap fun j =>
          columnDescs f wx (cz - (GRID : ℤ) / 2 + j) LAYERS).length = GRID * LAYERS :=
      fun wx i _ =>
        length_flatMap_const _ GRID LAYERS (fun j _ => by simp [columnDescs])
    show ((List.range GRID).flatMap fun i => (List.range GRID).flatMap fun j =>
      columnDescs f (cx - (GRID : ℤ) / 2 + i) (cz - (GRID : ℤ) / 2 + j) LAYERS)[k]? = _
    rw [getElem?_flatMap_const _ GRID (GRID * LAYERS) k
        (fun i hi => hinner _ i hi) (by rw [Nat.mul_assoc] at hk; exact hk)]
    rw [getElem?_flatMap_const _ GRID LAYERS _
        (fun j _ => by simp [columnDescs])
        (Nat.mod_lt _ (by norm_num [GRID, LAYERS]))]
    rw [columnDescs_getElem? _ _ _ _ _ (Nat.mod_lt _ (by norm_num [LAYERS]))]
    rfl
  · intro s px pz force f hc hor
    have hguard : ¬(force = false ∧ |⌊px⌋ - s.lastUpdateX| < 2 ∧
        |⌊pz⌋ - s.lastUpdateZ| < 2) := by
      rintro ⟨hf, hA, hB⟩
      rcases hor with h | h | h
      · rw [h] at hf; exact Bool.noConfusion hf
      · omega
      · omega
    simp only [updateTerrain, hc]
    rw [if_neg hguard]

/-- Witness for C8: index 0 of a concrete refresh, and a forced refresh
from a concrete state. -/
theorem refresh_emits_full_ordered_window_witness :
    ((0 : ℕ) < GRID * GRID * LAYERS ∧
      (emitWindow (fun _ _ => some 2) 0 0 GRID LAYERS)[0]? =
        some (windowIndexDesc (fun _ _ => some 2) 0 0 0)) ∧
    (updateTerrain ⟨some (fun _ _ => some 2), 5, 5, []⟩ 0 0 true).out =
      emitWindow (fun _ _ => some 2) ⌊(0 : ℚ)⌋ ⌊(0 : ℚ)⌋ GRID LAYERS := by
  refine ⟨⟨by decide, ?_⟩, ?_⟩
  · exact (refresh_emits_full_ordered_window.1 _ 0 0).2 0 (by decide)
  · exact refresh_emits_full_ordered_window.2 _ 0 0 true _ rfl (Or.inl rfl)

/-! ## Expression engine (src/script.js lines 241-254)

`compileFormula` itself is in the source, but it delegates parsing and
evaluation of the formula text to the host JavaScript engine via
`new Function('C','x','z', "with(C){return ...;}")`.  That host
functionality is not part of the repository, so the grammar actually used
by the formulas (numbers, the identifiers in scope, calls with
comma-separated arguments, `+ - * /`, parentheses, spaces) is modelled
below from the spec (§4.4 and §6). -/

inductive Tok where
  | num (q : ℚ)
  | ident (s : String)
  | plus | minus | star | slash | lpar | rpar | comma
deriving DecidableEq, Repr

/-- Partial token held by the tokenizer while scanning a number or an
identifier. -/
inductive PartTok where
  | numInt (ds : List Char)
  | numFrac (ds fs : List Char)
  | identP (cs : List Char)
deriving DecidableEq, Repr

def digitsToNat (ds : List Char) : ℕ :=
  ds.foldl (fun a c => a * 10 + (c.toNat - 48)) 0

/-- Value of a decimal numeral `ds.fs`. -/
def numValFrac (ds fs : List Char) : ℚ :=
  (digitsToNat ds : ℚ) + (digitsToNat fs : ℚ) / 10 ^ fs.length

def flushPart : Option PartTok → List Tok
  | none => []
  | some (.numInt ds) => [.num (digitsToNat ds)]
  | some (.numFrac ds fs) => [.num (numValFrac ds fs)]
  | some (.identP cs) => [.ident (String.mk cs)]

def symTok : Char → Option Tok
  | '+' => some .plus
  | '-' => some .minus
  | '*' => some .star
  | '/' => some .slash
  | '(' => some .lpar
  | ')' => some .rpar
  | ',' => some .comma
  | _ => none

def isIdentChar (c : Char) : Bool := c.isAlpha || c = '_'

/-- Modelled from the spec: tokenization of formula text as the host
JavaScript parser would see it — decimal numerals (optionally with a
fractional part), identifiers, the single-character operators and
delimiters, with spaces separating tokens.  A digit may extend a numeral
or an identifier; an identifier character may not begin inside a numeral
(as in JS, `12a` is malformed); any other character is rejected. -/
def tokenizeAux (cur : Option PartTok) : List Char → Option (List Tok)
  | [] => some (flushPart cur)
  | c :: cs =>
    if c.isDigit then
      match cur with
      | some (.numInt ds) => tokenizeAux (some (.numInt (ds ++ [c]))) cs
      | some (.numFrac ds fs) => tokenizeAux (some (.numFrac ds (fs ++ [c]))) cs
      | some (.identP is) => tokenizeAux (some (.identP (is ++ [c]))) cs
      | none => tokenizeAux (some (.numInt [c])) cs
    else if c = '.' then
      match cur with
      | some (.numInt ds) => tokenizeAux (some (.numFrac ds [])) cs
      | _ => none
    else if isIdentChar c then
      match cur with
      | some (.identP is) => tokenizeAux (some (.identP (is ++ [c]))) cs
      | some _ => none
      | none => tokenizeAux (some (.identP [c])) cs
    else if c = ' ' then
      (tokenizeAux none cs).map (flushPart cur ++ ·)
    else
      match symTok c with
      | some t => (tokenizeAux none cs).map (fun ts => flushPart cur ++ (t :: ts))
      | none => none

def tokenize (s : List Char) : Option (List Tok) := tokenizeAux none s

inductive BinOp where
  | add | sub | mul | div
deriving DecidableEq, Repr

inductive FExpr where
  | num (q : ℚ)
  | var (n : String)
  | bin (op : BinOp) (a b : FExpr)
  | call (fname : String) (args : List FExpr)
deriving Repr

mutual

/-- Modelled from the spec: a factor of the host expression grammar — a
numeral, an identifier (a call when immediately followed by `(`), or a
parenthesized expression. -/
def parseFactorT : (ts : List Tok) →
    Option (FExpr × { rest : List Tok // rest.length < ts.length })
  | .num q :: rest => some (.num q, ⟨rest, by simp⟩)
  | .ident n :: .lpar :: rest =>
    match parseArgsT rest with
    | some p =>
      some (.call n p.1, ⟨p.2.val, by
        have hp := p.2.2
        simp only [List.length_cons]
        omega⟩)
    | none => none
  | .ident n :: rest => some (.var n, ⟨rest, by simp⟩)
  | .lpar :: rest =>
    match parseExprT rest with
    | some p =>
      if p.2.val.head? = some .rpar then
        some (p.1, ⟨p.2.val.tail, by
          have hp := p.2.2
          have ht := List.length_tail p.2.val
          simp only [List.length_cons]
          omega⟩)
      else none
    | none => none
  | _ => none
termination_by ts => ts.length * 8
decreasing_by all_goals first
  | (simp_wf; omega)
  | (simp_wf; have hp := p.2.2; simp only [List.length_cons] at hp ⊢; omega)
  | (simp_wf; have hp := p.2.2; omega)
  | simp_wf

/-- Modelled from the spec: a multiplicative chain `factor (('*'|'/') factor)*`. -/
def parseTermT (ts : List Tok) :
    Option (FExpr × { rest : List Tok // rest.length < ts.length }) :=
  match parseFactorT ts with
  | some p =>
    match parseTermLoopT p.1 p.2.val with
    | some q => some (q.1, ⟨q.2.val, lt_of_le_of_lt q.2.2 p.2.2⟩)
    | none => none
  | none => none
termination_by ts.length * 8 + 1
decreasing_by all_goals first
  | (simp_wf; omega)
  | (simp_wf; have hp := p.2.2; simp only [List.length_cons] at hp ⊢; omega)
  | (simp_wf; have hp := p.2.2; omega)
  | simp_wf

/-- Modelled from the spec: the left-associative loop of `parseTermT`. -/
def parseTermLoopT (acc : FExpr) : (ts : List Tok) →
    Option (FExpr × { rest : List Tok // rest.length ≤ ts.length })
  | .star :: ts1 =>
    match parseFactorT ts1 with
    | some p =>
      match parseTermLoopT (.bin .mul acc p.1) p.2.val with
      | some q =>
        some (q.1, ⟨q.2.val, by
          have hp := p.2.2
          have hq := q.2.2
          simp only [List.length_cons]
          omega⟩)
      | none => none
    | none => none
  | .slash :: ts1 =>
    match parseFactorT ts1 with
    | some p =>
      match parseTermLoopT (.bin .div acc p.1) p.2.val with
      | some q =>
        some (q.1, ⟨q.2.val, by
          have hp := p.2.2
          have hq := q.2.2
          simp only [List.length_cons]
          omega⟩)
      | none => none
    | none => none
  | ts => some (acc, ⟨ts, le_refl _⟩)
termination_by ts => ts.length * 8 + 2
decreasing_by all_goals first
  | (simp_wf; omega)
  | (simp_wf; have hp := p.2.2; simp only [List.length_cons] at hp ⊢; omega)
  | (simp_wf; have hp := p.2.2; omega)
  | simp_wf

/-- Modelled from the spec: an additive chain `term (('+'|'-') term)*`. -/
def parseExprT (ts : List Tok) :
    Option (FExpr × { rest : List Tok // rest.length < ts.length }) :=
  match parseTermT ts with
  | some p =>
    match parseExprLoopT p.1 p.2.val with
    | some q => some (q.1, ⟨q.2.val, lt_of_le_of_lt q.2.2 p.2.2⟩)
    | none => none
  | none => none
termination_by ts.length * 8 + 3
decreasing_by all_goals first
  | (simp_wf; omega)
  | (simp_wf; have hp := p.2.2; simp only [List.length_cons] at hp ⊢; omega)
  | (simp_wf; have hp := p.2.2; omega)
  | simp_wf

/-- Modelled from the spec: the left-associative loop of `parseExprT`. -/
def parseExprLoopT (acc : FExpr) : (ts : List Tok) →
    Option (FExpr × { rest : List Tok // rest.length ≤ ts.length })
  | .plus :: ts1 =>
    match parseTermT ts1 with
    | some p =>
      match parseExprLoopT (.bin .add acc p.1) p.2.val with
      | some q =>
        some (q.1, ⟨q.2.val, by
          have hp := p.2.2
          have hq := q.2.2
          simp only [List.length_cons]
          omega⟩)
      | none => none
    | none => none
  | .minus :: ts1 =>
    match parseTermT ts1 with
    | some p =>
      match parseExprLoopT (.bin .sub acc p.1) p.2.val with
      | some q =>
        some (q.1, ⟨q.2.val, by
          have hp := p.2.2
          have hq := q.2.2
          simp only [List.length_cons]
          omega⟩)
      | none => none
    | none => none
  | ts => some (acc, ⟨ts, le_refl _⟩)
termination_by ts => ts.length * 8 + 4
decreasing_by all_goals first
  | (simp_wf; omega)
  | (simp_wf; have hp := p.2.2; simp only [List.length_cons] at hp ⊢; omega)
  | (simp_wf; have hp := p.2.2; omega)
  | simp_wf

/-- Modelled from the spec: a comma-separated argument list closed by `)`
(the closing parenthesis is consumed here). -/
def parseArgsT (ts : List Tok) :
    Option (List FExpr × { rest : List Tok // rest.length < ts.length }) :=
  match parseExprT ts with
  | some p =>
    match parseArgsLoopT [p.1] p.2.val with
    | some q => some (q.1, ⟨q.2.val, lt_trans q.2.2 p.2.2⟩)
    | none => none
  | none => none
termination_by ts.length * 8 + 5
decreasing_by all_goals first
  | (simp_wf; omega)
  | (simp_wf; have hp := p.2.2; simp only [List.length_cons] at hp ⊢; omega)
  | (simp_wf; have hp := p.2.2; omega)
  | simp_wf

/-- Modelled from the spec: the tail of an argument list. -/
def parseArgsLoopT (acc : List FExpr) : (ts : List Tok) →
    Option (List FExpr × { rest : List Tok // rest.length < ts.length })
  | .rpar :: rest => some (acc.reverse, ⟨rest, by simp⟩)
  | .comma :: ts1 =>
    match parseExprT ts1 with
    | some p =>
      match parseArgsLoopT (p.1 :: acc) p.2.val with
      | some q =>
        some (q.1, ⟨q.2.val, by
          have hp := p.2.2
          have hq := q.2.2
          simp only [List.length_cons]
          omega⟩)
      | none => none
    | none => none
  | _ => none
termination_by ts => ts.length * 8 + 6
decreasing_by all_goals first
  | (simp_wf; omega)
  | (simp_wf; have hp := p.2.2; simp only [List.length_cons] at hp ⊢; omega)
  | (simp_wf; have hp := p.2.2; omega)
  | simp_wf

end

/-- Modelled from the spec: parsing of a whole formula text — tokenize,
parse one expression, and require that every token was consumed. -/
def parseFormula (s : String) : Option FExpr :=
  match tokenize s.toList with
  | none => none
  | some ts =>
    match parseExprT ts with
    | some (e, ⟨[], _⟩) => some e
    | _ => none

/-- The named members of the evaluation context `Ctx`
(src/script.js lines 72-108) as seen by a formula: constants resolve as
variables, functions resolve in calls.  Trig and noise functions are real
valued and seeded; they are parameters of the embedding, so the table is
abstract here. -/
structure CtxTable where
  consts : String → Option ℚ
  fns : String → Option (List ℚ → Option ℚ)

/-- JS arithmetic on finite numbers.  (Division by zero yields an
infinity in JS, which every caller in the source coerces to height 0;
rational division by zero is 0 — the difference is unobservable through
the claims proved here.) -/
def applyBin : BinOp → ℚ → ℚ → ℚ
  | .add => (· + ·)
  | .sub => (· - ·)
  | .mul => (· * ·)
  | .div => (· / ·)

mutual

/-- Modelled from the spec: evaluation of a compiled formula body under
`with(C)` scope — `x` and `z` are the function parameters (the context has
no properties of those names), any other identifier resolves to a context
constant, calls resolve to context functions; an unbound name is a
`ReferenceError`, modelled by `none`. -/
def evalF (tbl : CtxTable) : FExpr → ℚ → ℚ → Option ℚ
  | .num q, _, _ => some q
  | .var n, x, z =>
    if n = "x" then some x else if n = "z" then some z else tbl.consts n
  | .bin op a b, x, z =>
    match evalF tbl a x z, evalF tbl b x z with
    | some va, some vb => some (applyBin op va vb)
    | _, _ => none
  | .call n args, x, z =>
    match tbl.fns n with
    | none => none
    | some f =>
      match evalArgs tbl args x z with
      | some vs => f vs
      | none => none

/-- Modelled from the spec: left-to-right evaluation of call arguments. -/
def evalArgs (tbl : CtxTable) : List FExpr → ℚ → ℚ → Option (List ℚ)
  | [], _, _ => some []
  | a :: as, x, z =>
    match evalF tbl a x z, evalArgs tbl as x z with
    | some v, some vs => some (v :: vs)
    | _, _ => none

end

/-- The caret rewrite of `compileFormula`
(src/script.js line 243): `str.replace(/\^/g, '**')`. -/
def rewriteCaretL : List Char → List Char
  | [] => []
  | c :: cs => if c = '^' then '*' :: '*' :: rewriteCaretL cs else c :: rewriteCaretL cs

/-- `compileFormula` (src/script.js lines 241-254): rewrite carets, build
the callable from the formula text (parse failure is the JS SyntaxError at
`new Function`), invoke it once at the canary coordinate (0,0), and
return the callable on success; any failure produces an error message for
the user and no function.  (The JS `**` operator itself is outside the
modelled grammar; no claim exercises it.) -/
def compileFormula (tbl : CtxTable) (str : String) : Except String HeightFn :=
  match parseFormula (String.mk (rewriteCaretL str.toList)) with
  | none => .error "SyntaxError: invalid or incomplete expression"
  | some ast =>
    match evalF tbl ast 0 0 with
    | none => .error "ReferenceError: formula evaluation failed at (0,0)"
    | some _ => .ok (fun x z => evalF tbl ast x z)

/-- The formula-input listener (src/script.js lines 425-428): the host
assigns the result of `compileFormula` to `compiledFunc` — `null` when
compilation failed — and then forces a terrain refresh. -/
def onFormulaInput (tbl : CtxTable) (s : TerrainState) (text : String)
    (px pz : ℚ) : TerrainState :=
  let s1 : TerrainState := { s with compiledFunc := (compileFormula tbl text).toOption }
  updateTerrain s1 px pz true

/-! ### Concrete compilations used by C2 and C6 -/

lemma tokenize_x_plus_z :
    tokenize ("x + z").toList = some [.ident "x", .plus, .ident "z"] := by
  decide

lemma tokenize_x_plus : tokenize ("x +").toList = some [.ident "x", .plus] := by
  decide

lemma parse_x_plus_z :
    parseFormula "x + z" = some (.bin .add (.var "x") (.var "z")) := by
  rw [parseFormula, tokenize_x_plus_z]
  simp [parseExprT, parseTermT, parseTermLoopT, parseExprLoopT, parseFactorT]

lemma parse_x_plus : parseFormula "x +" = none := by
  rw [parseFormula, tokenize_x_plus]
  simp [parseExprT, parseTermT, parseTermLoopT, parseExprLoopT, parseFactorT]

lemma rewriteCaret_x_plus_z :
    String.mk (rewriteCaretL ("x + z").toList) = "x + z" := by decide

lemma rewriteCaret_x_plus :
    String.mk (rewriteCaretL ("x +").toList) = "x +" := by decide

lemma compile_x_plus_z (tbl : CtxTable) :
    compileFormula tbl "x + z" =
      .ok (fun x z => evalF tbl (.bin .add (.var "x") (.var "z")) x z) := by
  rw [compileFormula, rewriteCaret_x_plus_z, parse_x_plus_z]
  simp [evalF, applyBin]

lemma compile_x_plus (tbl : CtxTable) :
    compileFormula tbl "x +" = .error "SyntaxError: invalid or incomplete expression" := by
  rw [compileFormula, rewriteCaret_x_plus, parse_x_plus]

/-- Claim C6: compiling "x + z" succeeds and the compiled function
returns 5 at (x=2, z=3); compiling "x +" fails with a CompileError
carrying a nonempty human-readable message; and acceptance is validated by
the canary invocation at (0,0) — any accepted function evaluated there
succeeds (the match on the canary result sits immediately after the
callable is built). -/
theorem compile_examples_and_canary (tbl : CtxTable) :
    (∃ f, compileFormula tbl "x + z" = .ok f ∧ f 2 3 = some 5) ∧
    (∃ msg, compileFormula tbl "x +" = .error msg ∧ msg ≠ "") ∧
    (∀ s f, compileFormula tbl s = .ok f → (f 0 0).isSome) := by
  refine ⟨⟨_, compile_x_plus_z tbl, ?_⟩, ⟨_, compile_x_plus tbl, by decide⟩, ?_⟩
  · have h1 : ¬("z" = "x") := by decide
    norm_num [evalF, applyBin, h1]
  · intro s f h
    simp only [compileFormula] at h
    split at h
    · exact absurd h (by simp)
    · split at h
      · exact absurd h (by simp)
      · injection h with h
        subst h
        simp_all

/-- Witness for C6 at the empty context table. -/
theorem compile_examples_and_canary_witness :
    (∃ f, compileFormula ⟨fun _ => none, fun _ => none⟩ "x + z" = .ok f ∧
      f 2 3 = some 5 ∧ (f 0 0).isSome) ∧
    (∃ msg, compileFormula ⟨fun _ => none, fun _ => none⟩ "x +" = .error msg ∧
      msg ≠ "") := by
  obtain ⟨⟨f, hok, hval⟩, hmsg, hcan⟩ :=
    compile_examples_and_canary ⟨fun _ => none, fun _ => none⟩
  exact ⟨⟨f, hok, hval, hcan _ _ hok⟩, hmsg⟩

/-- Counterexample to claim C2 as stated: before the failing compile the
host has a compiled function in effect (`some`), after it the in-effect
compiled function is `null` — `compiledFunc = compileFormula(...)` stores
the failure result, it does not retain the previous function. -/
theorem compile_failure_not_retained_counterexample :
    (compileFormula (⟨fun _ => none, fun _ => none⟩ : CtxTable) "x +").toOption = none ∧
    (onFormulaInput ⟨fun _ => none, fun _ => none⟩
        ⟨some (fun _ _ => some 1), 0, 0, []⟩ "x +" 0 0).compiledFunc = none ∧
    (⟨some (fun _ _ => some 1), 0, 0, []⟩ : TerrainState).compiledFunc ≠ none := by
  have h := compile_x_plus (⟨fun _ => none, fun _ => none⟩ : CtxTable)
  refine ⟨by rw [h]; rfl, ?_, by simp⟩
  simp [onFormulaInput, h, updateTerrain, Except.toOption]

/-- Amended claim C2 (what the code actually guarantees): when
compilation of the input text fails, the host replaces the in-effect
compiled function with null — the previous function is not retained — but
the forced refresh then bails out at the null check, so the rendered
descriptor store and the last-refreshed center (the visible last-good
state) are unchanged. -/
theorem compile_failure_leaves_last_good_terrain (tbl : CtxTable)
    (s : TerrainState) (text : String) (px pz : ℚ)
    (hfail : (compileFormula tbl text).toOption = none) :
    (onFormulaInput tbl s text px pz).compiledFunc = none ∧
    (onFormulaInput tbl s text px pz).out = s.out ∧
    (onFormulaInput tbl s text px pz).lastUpdateX = s.lastUpdateX ∧
    (onFormulaInput tbl s text px pz).lastUpdateZ = s.lastUpdateZ := by
  simp [onFormulaInput, hfail, updateTerrain]

/-- Witness for the amended C2 at a concrete failing input. -/
theorem compile_failure_leaves_last_good_terrain_witness :
    (compileFormula (⟨fun _ => none, fun _ => none⟩ : CtxTable) "x +").toOption = none ∧
    (onFormulaInput ⟨fun _ => none, fun _ => none⟩
        ⟨some (fun _ _ => some 2), 1, 1, [⟨0, 0, 0, .grass, false⟩]⟩ "x +" 0 0).out =
      [⟨0, 0, 0, .grass, false⟩] := by
  have hfail : (compileFormula (⟨fun _ => none, fun _ => none⟩ : CtxTable) "x +").toOption
      = none := by
    rw [compile_x_plus]
    rfl
  exact ⟨hfail, (compile_failure_leaves_last_good_terrain _ _ _ 0 0 hfail).2.1⟩

/-! ## Formula generator (src/script.js lines 113-135)

`Generator.genExpr` builds formula text with string templates and
`Number.toFixed`; the `Math.random()` draws are modelled as a stream
`rnd : ℕ → ℚ` of values in [0,1) consumed left to right. -/

def digitChar (d : ℕ) : Char := Char.ofNat (48 + d)

/-- Decimal digits of a natural number, most significant first. -/
def natDigits (n : ℕ) : List Char :=
  if _h : n < 10 then [digitChar n]
  else natDigits (n / 10) ++ [digitChar (n % 10)]
termination_by n
decreasing_by exact Nat.div_lt_self (by omega) (by norm_num)

/-- Modelled from the spec: `Number.toFixed(d)` for a nonnegative finite
number — round to d decimal places and print with exactly d fraction
digits (used by `genExpr` for its numeric literals). -/
def padDigits (d fp : ℕ) : List Char :=
  List.replicate (d - (natDigits fp).length) '0' ++ natDigits fp

def toFixed (q : ℚ) (d : ℕ) : String :=
  let n : ℕ := (⌊q * 10 ^ d + 1 / 2⌋).toNat
  if d = 0 then String.mk (natDigits n)
  else String.mk (natDigits (n / 10 ^ d) ++ '.' :: padDigits d (n % 10 ^ d))

/-- The rational value denoted by the numeral text `toFixed q d`. -/
def fixVal (q : ℚ) (d : ℕ) : ℚ := ((⌊q * 10 ^ d + 1 / 2⌋).toNat : ℚ) / 10 ^ d

lemma digitChar_isDigit {d : ℕ} (hd : d < 10) : (digitChar d).isDigit = true := by
  interval_cases d <;> decide

lemma digitChar_toNat {d : ℕ} (hd : d < 10) : (digitChar d).toNat = 48 + d := by
  interval_cases d <;> decide

lemma natDigits_ne_nil (n : ℕ) : natDigits n ≠ [] := by
  rw [natDigits]
  split <;> simp

lemma natDigits_all_isDigit (n : ℕ) : ∀ c ∈ natDigits n, c.isDigit = true := by
  induction n using Nat.strong_induction_on with
  | _ n ih =>
    rw [natDigits]
    split
    · intro c hc
      rw [List.mem_singleton] at hc
      subst hc
      exact digitChar_isDigit (by omega)
    · intro c hc
      rcases List.mem_append.mp hc with hc | hc
      · exact ih (n / 10) (Nat.div_lt_self (by omega) (by norm_num)) c hc
      · rw [List.mem_singleton] at hc
        subst hc
        exact digitChar_isDigit (Nat.mod_lt _ (by norm_num))

lemma foldl_digits_append (a : ℕ) (l1 l2 : List Char) :
    (l1 ++ l2).foldl (fun x c => x * 10 + (c.toNat - 48)) a =
      l2.foldl (fun x c => x * 10 + (c.toNat - 48))
        (l1.foldl (fun x c => x * 10 + (c.toNat - 48)) a) :=
  List.foldl_append ..

lemma digitsToNat_natDigits (n : ℕ) : digitsToNat (natDigits n) = n := by
  induction n using Nat.strong_induction_on with
  | _ n ih =>
    rw [natDigits]
    split
    · next h =>
      simp [digitsToNat, digitChar_toNat h]
    · next h =>
      rw [digitsToNat, foldl_digits_append]
      have := ih (n / 10) (Nat.div_lt_self (by omega) (by norm_num))
      rw [digitsToNat] at this
      rw [this]
      simp only [List.foldl_cons, List.foldl_nil,
        digitChar_toNat (Nat.mod_lt n (by norm_num))]
      omega

lemma foldl_digits_zeros (k : ℕ) :
    (List.replicate k '0').foldl (fun x c => x * 10 + (c.toNat - 48)) 0 = 0 := by
  induction k with
  | zero => rfl
  | succ m ih => simpa [List.replicate_succ] using ih

lemma digitsToNat_padDigits (d fp : ℕ) : digitsToNat (padDigits d fp) = fp := by
  rw [padDigits, digitsToNat, foldl_digits_append, foldl_digits_zeros,
    ← digitsToNat, digitsToNat_natDigits]

lemma natDigits_length_le (d : ℕ) : ∀ n, n < 10 ^ d → 1 ≤ d →
    (natDigits n).length ≤ d := by
  induction d with
  | zero => omega
  | succ e ih =>
    intro n hn _
    rw [natDigits]
    split
    · simp
    · next h =>
      have he : 1 ≤ e := by
        by_contra hc
        have : e = 0 := by omega
        subst this
        simp at hn
        omega
      have hlt : n / 10 < 10 ^ e := by
        rw [Nat.div_lt_iff_lt_mul (by norm_num)]
        calc n < 10 ^ (e + 1) := hn
        _ = 10 ^ e * 10 := by ring
      have := ih (n / 10) hlt he
      simp only [List.length_append, List.length_singleton]
      omega

lemma padDigits_length (d fp : ℕ) (hfp : fp < 10 ^ d) (hd : 1 ≤ d) :
    (padDigits d fp).length = d := by
  have := natDigits_length_le d fp hfp hd
  simp only [padDigits, List.length_append, List.length_replicate]
  omega

lemma padDigits_all_isDigit (d fp : ℕ) : ∀ c ∈ padDigits d fp, c.isDigit = true := by
  intro c hc
  rcases List.mem_append.mp hc with hc | hc
  · rw [List.eq_of_mem_replicate hc]
    decide
  · exact natDigits_all_isDigit fp c hc

/-! ### Tokenizer stepping lemmas -/

/-- A rest string that cannot extend a pending numeral or identifier:
empty, or starting with a space or a closing parenthesis.  These are the
only contexts in which generated fragments ending in a digit occur. -/
def SoftStart (rest : List Char) : Prop :=
  rest = [] ∨ ∃ cs, rest = ' ' :: cs ∨ rest = ')' :: cs

lemma tokAux_numInt_advance (ds : List Char) (hds : ∀ c ∈ ds, c.isDigit = true) :
    ∀ acc rest, tokenizeAux (some (.numInt acc)) (ds ++ rest) =
      tokenizeAux (some (.numInt (acc ++ ds))) rest := by
  induction ds with
  | nil => simp
  | cons c cs ih =>
    intro acc rest
    have hc : c.isDigit = true := hds c (by simp)
    show tokenizeAux (some (.numInt acc)) (c :: (cs ++ rest)) = _
    rw [tokenizeAux, if_pos hc]
    rw [ih (fun d hd => hds d (by simp [hd])) (acc ++ [c]) rest]
    simp

lemma tokAux_numFrac_advance (fs : List Char) (hfs : ∀ c ∈ fs, c.isDigit = true) :
    ∀ ds acc rest, tokenizeAux (some (.numFrac ds acc)) (fs ++ rest) =
      tokenizeAux (some (.numFrac ds (acc ++ fs))) rest := by
  induction fs with
  | nil => simp
  | cons c cs ih =>
    intro ds acc rest
    have hc : c.isDigit = true := hfs c (by simp)
    show tokenizeAux (some (.numFrac ds acc)) (c :: (cs ++ rest)) = _
    rw [tokenizeAux, if_pos hc]
    rw [ih (fun d hd => hfs d (by simp [hd])) ds (acc ++ [c]) rest]
    simp

lemma tokAux_ident_advance (cs : List Char)
    (h : ∀ c ∈ cs, c.isDigit = false ∧ c ≠ '.' ∧ isIdentChar c = true) :
    ∀ acc rest, tokenizeAux (some (.identP acc)) (cs ++ rest) =
      tokenizeAux (some (.identP (acc ++ cs))) rest := by
  induction cs with
  | nil => simp
  | cons c cs ih =>
    intro acc rest
    obtain ⟨h1, h2, h3⟩ := h c (by simp)
    show tokenizeAux (some (.identP acc)) (c :: (cs ++ rest)) = _
    rw [tokenizeAux, if_neg (by simp [h1]), if_neg h2, if_pos h3]
    rw [ih (fun d hd => h d (by simp [hd])) (acc ++ [c]) rest]
    simp

lemma tokAux_none_digits (ds : List Char) (hne : ds ≠ [])
    (hds : ∀ c ∈ ds, c.isDigit = true) (rest : List Char) :
    tokenizeAux none (ds ++ rest) = tokenizeAux (some (.numInt ds)) rest := by
  cases ds with
  | nil => exact absurd rfl hne
  | cons c cs =>
    have hc : c.isDigit = true := hds c (by simp)
    show tokenizeAux none (c :: (cs ++ rest)) = _
    rw [tokenizeAux, if_pos hc]
    exact tokAux_numInt_advance cs (fun d hd => hds d (by simp [hd])) [c] rest

lemma tokAux_none_ident (cs : List Char) (hne : cs ≠ [])
    (h : ∀ c ∈ cs, c.isDigit = false ∧ c ≠ '.' ∧ isIdentChar c = true)
    (rest : List Char) :
    tokenizeAux none (cs ++ rest) = tokenizeAux (some (.identP cs)) rest := by
  cases cs with
  | nil => exact absurd rfl hne
  | cons c cs =>
    obtain ⟨h1, h2, h3⟩ := h c (by simp)
    show tokenizeAux none (c :: (cs ++ rest)) = _
    rw [tokenizeAux, if_neg (by simp [h1]), if_neg h2, if_pos h3]
    exact tokAux_ident_advance cs (fun d hd => h d (by simp [hd])) [c] rest

lemma tokAux_numInt_dot (ds cs : List Char) :
    tokenizeAux (some (.numInt ds)) ('.' :: cs) =
      tokenizeAux (some (.numFrac ds [])) cs := by
  rw [tokenizeAux, if_neg (by decide), if_pos rfl]

lemma tokAux_none_space (cs : List Char) :
    tokenizeAux none (' ' :: cs) = tokenizeAux none cs := by
  rw [tokenizeAux.eq_def]
  simp only [show (' ' : Char).isDigit = false by decide, Bool.false_eq_true,
    if_false, show ((' ' : Char) = '.') = False by simp, if_false,
    show isIdentChar ' ' = false by decide, if_pos rfl, flushPart]
  cases tokenizeAux none cs <;> simp

lemma tokAux_none_sym {c : Char} {t : Tok} (hc : symTok c = some t)
    (hcd : c.isDigit = false) (hdot : c ≠ '.') (hid : isIdentChar c = false)
    (hsp : c ≠ ' ') (cs : List Char) :
    tokenizeAux none (c :: cs) = (tokenizeAux none cs).map (fun ts => t :: ts) := by
  rw [tokenizeAux.eq_def]
  simp only [hcd, Bool.false_eq_true, if_false, hdot, if_neg hdot, hid,
    if_neg hsp, hc, flushPart]
  cases tokenizeAux none cs <;> simp

lemma tokAux_flush_sym {c : Char} {t : Tok} (hc : symTok c = some t)
    (hcd : c.isDigit = false) (hdot : c ≠ '.') (hid : isIdentChar c = false)
    (hsp : c ≠ ' ') (st : PartTok) (cs : List Char) :
    tokenizeAux (some st) (c :: cs) =
      (tokenizeAux none cs).map (fun ts => flushPart (some st) ++ t :: ts) := by
  rw [tokenizeAux.eq_def]
  rcases st with ds | ⟨ds, fs⟩ | is <;>
    simp only [hcd, Bool.false_eq_true, if_false, if_neg hdot, hid,
      if_neg hsp, hc, flushPart]

lemma tokAux_flush_space (st : PartTok) (cs : List Char) :
    tokenizeAux (some st) (' ' :: cs) =
      (tokenizeAux none cs).map (fun ts => flushPart (some st) ++ ts) := by
  rw [tokenizeAux.eq_def]
  rcases st with ds | ⟨ds, fs⟩ | is <;>
    simp only [show (' ' : Char).isDigit = false by decide, Bool.false_eq_true,
      if_false, show ((' ' : Char) = '.') = False by simp, if_false,
      show isIdentChar ' ' = false by decide, if_pos rfl, if_true, ite_true, flushPart]

/-- Ending a fragment whose last characters left a pending token: against
a soft rest the pending token is flushed in front of the rest's tokens. -/
lemma tokAux_flush_soft (st : PartTok) (rest : List Char) (h : SoftStart rest) :
    tokenizeAux (some st) rest = (tokenize rest).map (flushPart (some st) ++ ·) := by
  rcases h with rfl | ⟨cs, rfl | rfl⟩
  · simp [tokenizeAux, tokenize, flushPart]
  · rw [tokAux_flush_space, tokenize, tokAux_none_space]
  · rw [tokAux_flush_sym (show symTok ')' = some Tok.rpar from rfl) (by decide)
        (by decide) (by decide) (by decide),
      tokenize, tokAux_none_sym (show symTok ')' = some Tok.rpar from rfl)
        (by decide) (by decide) (by decide) (by decide)]
    cases tokenizeAux none cs <;> simp

lemma numValFrac_eq (ds fs : List Char) :
    numValFrac ds fs = (digitsToNat ds : ℚ) + (digitsToNat fs : ℚ) / 10 ^ fs.length :=
  rfl

/-- Tokenizing the text of `toFixed q d` (d ≥ 1) against a soft rest gives
exactly one number token of value `fixVal q d`. -/
lemma tokenize_toFixed (q : ℚ) (d : ℕ) (hd : d ≠ 0) (rest : List Char)
    (hr : SoftStart rest) :
    tokenizeAux none ((toFixed q d).toList ++ rest) =
      (tokenize rest).map (fun ts => .num (fixVal q d) :: ts) := by
  have htl : (toFixed q d).toList =
      natDigits ((⌊q * 10 ^ d + 1 / 2⌋).toNat / 10 ^ d) ++
        '.' :: padDigits d ((⌊q * 10 ^ d + 1 / 2⌋).toNat % 10 ^ d) := by
    rw [toFixed, if_neg hd]
    rfl
  rw [htl, List.append_assoc, List.cons_append,
    tokAux_none_digits _ (natDigits_ne_nil _) (natDigits_all_isDigit _),
    tokAux_numInt_dot,
    tokAux_numFrac_advance _ (padDigits_all_isDigit _ _),
    tokAux_flush_soft _ _ hr]
  have hfp : (⌊q * 10 ^ d + 1 / 2⌋).toNat % 10 ^ d < 10 ^ d :=
    Nat.mod_lt _ (by positivity)
  have hv : numValFrac (natDigits ((⌊q * 10 ^ d + 1 / 2⌋).toNat / 10 ^ d))
      ([] ++ padDigits d ((⌊q * 10 ^ d + 1 / 2⌋).toNat % 10 ^ d)) = fixVal q d := by
    rw [List.nil_append, numValFrac_eq, digitsToNat_natDigits, digitsToNat_padDigits,
      padDigits_length _ _ hfp (by omega), fixVal]
    generalize (⌊q * 10 ^ d + 1 / 2⌋).toNat = n
    have hsplit := Nat.div_add_mod n (10 ^ d)
    have hq : ((10 ^ d * (n / 10 ^ d) + n % 10 ^ d : ℕ) : ℚ) = (n : ℚ) := by
      rw [hsplit]
    push_cast at hq
    have h10 : ((10 : ℚ) ^ d) ≠ 0 := by positivity
    rw [eq_div_iff h10, add_mul, div_mul_cancel₀ _ h10]
    linarith [hq]
  rw [flushPart, hv]
  cases tokenize rest <;> simp

/-! ### The generator itself -/

/-- `Generator.ops` (src/script.js line 114). -/
def genOps : List String := ["+", "-", "*"]

/-- `Generator.funcs` (src/script.js line 115). -/
def genFuncs : List String := ["sin", "cos", "abs", "floor"]

/-- `Generator.noise` (src/script.js line 116). -/
def genNoise : List String := ["simplex", "octaved"]

/-- `Generator.pick` (src/script.js line 117):
`arr[Math.floor(Math.random()*arr.length)]` with the random draw passed
in.  An out-of-range index would be JS `undefined`, which stringifies as
`undefined` in the template literals; with draws in [0,1) it never
happens. -/
def pick (arr : List String) (r : ℚ) : String :=
  arr.getD (⌊r * arr.length⌋).toNat "undefined"

/-- `Generator.genExpr` (src/script.js lines 119-129): the recursive
formula-text builder.  The `Math.random()` draws are supplied by the
stream `rnd`, consumed left to right starting at position k (template
literals evaluate their interpolations left to right); the call returns
the generated text together with the next stream position.  Each
recursive call decreases `depth` by one and `depth ≤ 0` is a base case. -/
def genExpr (rnd : ℕ → ℚ) (depth : ℤ) (k : ℕ) : String × ℕ :=
  if depth ≤ 0 then
    let r := rnd k
    if r < 3 / 5 then
      let coin := rnd (k + 1)
      let scale := rnd (k + 2)
      ((if coin < 1 / 2 then "x" else "z") ++ "*" ++ toFixed (scale * (3 / 20)) 3, k + 3)
    else
      let amp := rnd (k + 1)
      (toFixed (amp * 10) 1, k + 2)
  else
    let type := rnd k
    if type < 3 / 10 then
      let p1 := genExpr rnd (depth - 1) (k + 1)
      let op := pick genOps (rnd p1.2)
      let p2 := genExpr rnd (depth - 1) (p1.2 + 1)
      ("(" ++ p1.1 ++ " " ++ op ++ " " ++ p2.1 ++ ")", p2.2)
    else if type < 3 / 5 then
      let fname := pick genFuncs (rnd (k + 1))
      let p1 := genExpr rnd (depth - 1) (k + 2)
      (fname ++ "(" ++ p1.1 ++ ")", p1.2)
    else
      let nname := pick genNoise (rnd (k + 1))
      (nname ++ "(x*0.05, 0, z*0.05) * 10", k + 2)
termination_by depth.toNat
decreasing_by all_goals omega

/-- The shapes of text `genExpr` can produce, abstracted over the random
outcomes: a scaled coordinate term, a literal, a parenthesized binary
combination, a unary function wrap, or the noise-call template. -/
inductive GenAst where
  | coordTerm (isX : Bool) (v : ℚ)
  | numLit (v : ℚ)
  | binComb (a : GenAst) (op : String) (b : GenAst)
  | funWrap (fname : String) (a : GenAst)
  | noiseCall (nname : String)
deriving Repr

/-- Token of a generated binary operator string. -/
def opTok : String → Tok
  | "+" => .plus
  | "-" => .minus
  | _ => .star

/-- The token sequence of a generated shape. -/
def genToks : GenAst → List Tok
  | .coordTerm isX v => [.ident (if isX then "x" else "z"), .star, .num v]
  | .numLit v => [.num v]
  | .binComb a op b => .lpar :: (genToks a ++ opTok op :: (genToks b ++ [.rpar]))
  | .funWrap f a => .ident f :: .lpar :: (genToks a ++ [.rpar])
  | .noiseCall n => [.ident n, .lpar, .ident "x", .star, .num (1 / 20), .comma,
      .num 0, .comma, .ident "z", .star, .num (1 / 20), .rpar, .star, .num 10]

/-- Wellformedness of a generated shape: picked names come from the
generator's tables. -/
def GAok : GenAst → Prop
  | .coordTerm _ _ => True
  | .numLit _ => True
  | .binComb a op b => op ∈ genOps ∧ GAok a ∧ GAok b
  | .funWrap f a => f ∈ genFuncs ∧ GAok a
  | .noiseCall n => n ∈ genNoise

/-- The shape produced by `genExpr` for the same stream of draws. -/
def genExprA (rnd : ℕ → ℚ) (depth : ℤ) (k : ℕ) : GenAst × ℕ :=
  if depth ≤ 0 then
    let r := rnd k
    if r < 3 / 5 then
      (.coordTerm (rnd (k + 1) < 1 / 2) (fixVal (rnd (k + 2) * (3 / 20)) 3), k + 3)
    else
      (.numLit (fixVal (rnd (k + 1) * 10) 1), k + 2)
  else
    let type := rnd k
    if type < 3 / 10 then
      let p1 := genExprA rnd (depth - 1) (k + 1)
      let op := pick genOps (rnd p1.2)
      let p2 := genExprA rnd (depth - 1) (p1.2 + 1)
      (.binComb p1.1 op p2.1, p2.2)
    else if type < 3 / 5 then
      let fname := pick genFuncs (rnd (k + 1))
      let p1 := genExprA rnd (depth - 1) (k + 2)
      (.funWrap fname p1.1, p1.2)
    else
      (.noiseCall (pick genNoise (rnd (k + 1))), k + 2)
termination_by depth.toNat
decreasing_by all_goals omega

lemma pick_mem (arr : List String) (r : ℚ) (hne : arr ≠ [])
    (h0 : 0 ≤ r) (h1 : r < 1) : pick arr r ∈ arr := by
  have hlen : 0 < arr.length := List.length_pos.mpr hne
  have hidx : (⌊r * arr.length⌋).toNat < arr.length := by
    have hfl : ⌊r * arr.length⌋ < arr.length := by
      apply Int.floor_lt.mpr
      push_cast
      have hlq : (0 : ℚ) < arr.length := by exact_mod_cast hlen
      have := mul_lt_mul_of_pos_right h1 hlq
      linarith
    have hge : 0 ≤ ⌊r * arr.length⌋ :=
      Int.floor_nonneg.mpr (by positivity)
    omega
  rw [pick, arr.getD_eq_getElem _ hidx]
  exact arr.getElem_mem hidx

lemma toList_append (s t : String) : (s ++ t).toList = s.toList ++ t.toList := by
  cases s
  cases t
  rfl

lemma genOps_char {op : String} (h : op ∈ genOps) :
    ∃ c, op.toList = [c] ∧ symTok c = some (opTok op) ∧ c.isDigit = false ∧
      c ≠ '.' ∧ isIdentChar c = false ∧ c ≠ ' ' := by
  simp only [genOps, List.mem_cons, List.mem_singleton, List.not_mem_nil, or_false] at h
  rcases h with rfl | rfl | rfl
  · exact ⟨'+', by decide, by decide, by decide, by decide, by decide, by decide⟩
  · exact ⟨'-', by decide, by decide, by decide, by decide, by decide, by decide⟩
  · exact ⟨'*', by decide, by decide, by decide, by decide, by decide, by decide⟩

lemma genFuncs_chars {f : String} (h : f ∈ genFuncs) :
    f.toList ≠ [] ∧
      ∀ c ∈ f.toList, c.isDigit = false ∧ c ≠ '.' ∧ isIdentChar c = true := by
  simp only [genFuncs, List.mem_cons, List.mem_singleton, List.not_mem_nil, or_false] at h
  rcases h with rfl | rfl | rfl | rfl <;> exact ⟨by decide, by decide⟩

lemma genNoise_chars {n : String} (h : n ∈ genNoise) :
    n.toList ≠ [] ∧
      ∀ c ∈ n.toList, c.isDigit = false ∧ c ≠ '.' ∧ isIdentChar c = true := by
  simp only [genNoise, List.mem_cons, List.mem_singleton, List.not_mem_nil, or_false] at h
  rcases h with rfl | rfl <;> exact ⟨by decide, by decide⟩

/-- Tokenizer on a finite chunk: returns the tokens completed within the
chunk and the pending partial token at its end.  Mirrors `tokenizeAux`
branch for branch. -/
def tokenizePart (cur : Option PartTok) : List Char → Option (List Tok × Option PartTok)
  | [] => some ([], cur)
  | c :: cs =>
    if c.isDigit then
      match cur with
      | some (.numInt ds) => tokenizePart (some (.numInt (ds ++ [c]))) cs
      | some (.numFrac ds fs) => tokenizePart (some (.numFrac ds (fs ++ [c]))) cs
      | some (.identP is) => tokenizePart (some (.identP (is ++ [c]))) cs
      | none => tokenizePart (some (.numInt [c])) cs
    else if c = '.' then
      match cur with
      | some (.numInt ds) => tokenizePart (some (.numFrac ds [])) cs
      | _ => none
    else if isIdentChar c then
      match cur with
      | some (.identP is) => tokenizePart (some (.identP (is ++ [c]))) cs
      | some _ => none
      | none => tokenizePart (some (.identP [c])) cs
    else if c = ' ' then
      (tokenizePart none cs).map (fun p => (flushPart cur ++ p.1, p.2))
    else
      match symTok c with
      | some t => (tokenizePart none cs).map (fun p => (flushPart cur ++ t :: p.1, p.2))
      | none => none

/-- Spine lemma: running the tokenizer over `chunk ++ rest` first produces
the chunk's completed tokens and then continues on `rest` from the chunk's
pending state. -/
lemma tokenizePart_spec (s : List Char) :
    ∀ (cur : Option PartTok) (T : List Tok) (st : Option PartTok),
      tokenizePart cur s = some (T, st) →
      ∀ rest, tokenizeAux cur (s ++ rest) = (tokenizeAux st rest).map (T ++ ·) := by
  induction s with
  | nil =>
    intro cur T st h rest
    simp only [tokenizePart] at h
    cases h
    rw [List.nil_append]
    cases tokenizeAux cur rest <;> simp
  | cons c cs ih =>
    intro cur T st h rest
    show tokenizeAux cur (c :: (cs ++ rest)) = _
    rw [tokenizeAux.eq_def]
    rw [tokenizePart.eq_def] at h
    dsimp only at h ⊢
    by_cases hd : c.isDigit
    · rw [if_pos hd] at h ⊢
      rcases cur with _ | p
      · exact ih _ _ _ h rest
      · rcases p with ds | ⟨ds, fs⟩ | is <;> exact ih _ _ _ h rest
    · rw [if_neg hd] at h ⊢
      by_cases hdot : c = '.'
      · subst hdot
        rw [if_pos rfl] at h ⊢
        rcases cur with _ | p
        · exact absurd h (by simp)
        · rcases p with ds | ⟨ds, fs⟩ | is
          · exact ih _ _ _ h rest
          · exact absurd h (by simp)
          · exact absurd h (by simp)
      · rw [if_neg hdot] at h ⊢
        by_cases hic : isIdentChar c
        · rw [if_pos hic] at h ⊢
          rcases cur with _ | p
          · exact ih _ _ _ h rest
          · rcases p with ds | ⟨ds, fs⟩ | is
            · exact absurd h (by simp)
            · exact absurd h (by simp)
            · exact ih _ _ _ h rest
        · rw [if_neg hic] at h ⊢
          by_cases hsp : c = ' '
          · subst hsp
            rw [if_pos rfl] at h ⊢
            rcases hrec : tokenizePart none cs with _ | ⟨T2, st2⟩
            · rw [hrec] at h
              exact absurd h (by simp)
            · rw [hrec] at h
              simp only [Option.map] at h
              cases h
              rw [ih _ _ _ hrec rest, Option.map_map]
              congr 1
              funext ts
              simp [Function.comp]
          · rw [if_neg hsp] at h ⊢
            rcases hs : symTok c with _ | t
            · rw [hs] at h
              exact absurd h (by simp)
            · rw [hs] at h
              rcases hrec : tokenizePart none cs with _ | ⟨T2, st2⟩
              · rw [hrec] at h
                exact absurd h (by simp)
              · rw [hrec] at h
                simp only [Option.map_some] at h
                cases h
                rw [ih _ _ _ hrec rest]
                dsimp only
                rw [Option.map_map]
                congr 1
                funext ts
                simp [Function.comp]

lemma tokenize_def (s : List Char) : tokenize s = tokenizeAux none s := rfl

/-- Base case of the generator: the produced text tokenizes to the tokens
of the produced shape. -/
lemma genExpr_spec_base (rnd : ℕ → ℚ) (depth : ℤ) (hdep : depth ≤ 0) (k : ℕ) :
    (genExpr rnd depth k).2 = (genExprA rnd depth k).2 ∧
    GAok (genExprA rnd depth k).1 ∧
    ∀ rest, SoftStart rest →
      tokenizeAux none ((genExpr rnd depth k).1.toList ++ rest) =
        (tokenize rest).map (genToks (genExprA rnd depth k).1 ++ ·) := by
  rw [genExpr.eq_def, genExprA.eq_def, if_pos hdep, if_pos hdep]
  dsimp only
  by_cases hc : rnd k < 3 / 5
  · rw [if_pos hc, if_pos hc]
    refine ⟨rfl, trivial, fun rest hsoft => ?_⟩
    dsimp only
    by_cases hcoin : rnd (k + 1) < 1 / 2
    · rw [if_pos hcoin]
      have hlist : (("x" ++ "*" ++ toFixed (rnd (k + 2) * (3 / 20)) 3) : String).toList
            ++ rest =
          ['x', '*'] ++ ((toFixed (rnd (k + 2) * (3 / 20)) 3).toList ++ rest) := by
        rw [toList_append, toList_append]
        simp [List.append_assoc]
      rw [hlist,
        tokenizePart_spec ['x', '*'] none [.ident "x", .star] none (by decide) _,
        tokenize_toFixed _ 3 (by norm_num) rest hsoft, Option.map_map]
      simp only [genToks, decide_eq_true_eq]
      rw [if_pos hcoin]
      cases tokenize rest <;> simp [Function.comp]
    · rw [if_neg hcoin]
      have hlist : (("z" ++ "*" ++ toFixed (rnd (k + 2) * (3 / 20)) 3) : String).toList
            ++ rest =
          ['z', '*'] ++ ((toFixed (rnd (k + 2) * (3 / 20)) 3).toList ++ rest) := by
        rw [toList_append, toList_append]
        simp [List.append_assoc]
      rw [hlist,
        tokenizePart_spec ['z', '*'] none [.ident "z", .star] none (by decide) _,
        tokenize_toFixed _ 3 (by norm_num) rest hsoft, Option.map_map]
      simp only [genToks, decide_eq_true_eq]
      rw [if_neg hcoin]
      cases tokenize rest <;> simp [Function.comp]
  · rw [if_neg hc, if_neg hc]
    refine ⟨rfl, trivial, fun rest hsoft => ?_⟩
    rw [tokenize_toFixed _ 1 (by norm_num) rest hsoft]
    simp only [genToks]
    cases tokenize rest <;> simp

lemma soft_space (cs : List Char) : SoftStart (' ' :: cs) := Or.inr ⟨cs, Or.inl rfl⟩

lemma soft_rpar (cs : List Char) : SoftStart (')' :: cs) := Or.inr ⟨cs, Or.inr rfl⟩

/-- Main generator lemma: the text produced by `genExpr` tokenizes to the
token sequence of the wellformed shape produced by `genExprA`, and both
consume the random stream identically. -/
lemma genExpr_spec (rnd : ℕ → ℚ) (hr : ∀ i, 0 ≤ rnd i ∧ rnd i < 1) :
    ∀ (dn : ℕ) (depth : ℤ), depth.toNat ≤ dn → ∀ (k : ℕ),
      (genExpr rnd depth k).2 = (genExprA rnd depth k).2 ∧
      GAok (genExprA rnd depth k).1 ∧
      ∀ rest, SoftStart rest →
        tokenizeAux none ((genExpr rnd depth k).1.toList ++ rest) =
          (tokenize rest).map (genToks (genExprA rnd depth k).1 ++ ·) := by
  intro dn
  induction dn with
  | zero =>
    intro depth hdn k
    exact genExpr_spec_base rnd depth (by omega) k
  | succ m ih =>
    intro depth hdn k
    by_cases hdep : depth ≤ 0
    · exact genExpr_spec_base rnd depth hdep k
    · have hdn1 : (depth - 1).toNat ≤ m := by omega
      rw [genExpr.eq_def, genExprA.eq_def, if_neg hdep, if_neg hdep]
      dsimp only
      by_cases ht1 : rnd k < 3 / 10
      · rw [if_pos ht1, if_pos ht1]
        dsimp only
        obtain ⟨hpos1, hok1, htok1⟩ := ih (depth - 1) hdn1 (k + 1)
        rw [hpos1]
        obtain ⟨hpos2, hok2, htok2⟩ :=
          ih (depth - 1) hdn1 ((genExprA rnd (depth - 1) (k + 1)).2 + 1)
        rw [hpos2]
        have hop : pick genOps (rnd (genExprA rnd (depth - 1) (k + 1)).2) ∈ genOps :=
          pick_mem _ _ (by simp [genOps]) (hr _).1 (hr _).2
        refine ⟨rfl, ⟨hop, hok1, hok2⟩, fun rest hsoft => ?_⟩
        simp only [genOps, List.mem_cons, List.mem_singleton, List.not_mem_nil,
          or_false] at hop
        rcases hop with hop | hop | hop
        · rw [show pick genOps (rnd (genExprA rnd (depth - 1) (k + 1)).2) = "+" from hop]
          have hlist : ("(" ++ (genExpr rnd (depth - 1) (k + 1)).1 ++ " " ++ "+" ++ " " ++
              (genExpr rnd (depth - 1) ((genExprA rnd (depth - 1) (k + 1)).2 + 1)).1 ++ ")").toList ++ rest =
              ['('] ++ ((genExpr rnd (depth - 1) (k + 1)).1.toList ++
                ' ' :: '+' :: ' ' :: ((genExpr rnd (depth - 1) ((genExprA rnd (depth - 1) (k + 1)).2 + 1)).1.toList ++ ')' :: rest)) := by
            simp [toList_append, show ("(" : String).toList = ['('] from rfl,
              show (")" : String).toList = [')'] from rfl,
              show (" " : String).toList = [' '] from rfl,
              show ("+" : String).toList = ['+'] from rfl]
          rw [hlist,
            tokenizePart_spec ['('] none [.lpar] none (by decide) _,
            htok1 _ (soft_space _), tokenize_def,
            show (' ' :: '+' :: ' ' :: ((genExpr rnd (depth - 1) ((genExprA rnd (depth - 1) (k + 1)).2 + 1)).1.toList ++ ')' :: rest)) =
              [' ', '+', ' '] ++ ((genExpr rnd (depth - 1) ((genExprA rnd (depth - 1) (k + 1)).2 + 1)).1.toList ++ ')' :: rest) from rfl,
            tokenizePart_spec [' ', '+', ' '] none [.plus] none (by decide) _,
            htok2 _ (soft_rpar _), tokenize_def,
            show (')' :: rest) = [')'] ++ rest from rfl,
            tokenizePart_spec [')'] none [.rpar] none (by decide) _]
          simp only [genToks, opTok, Option.map_map, tokenize_def]
          cases tokenizeAux none rest <;> simp [Function.comp]
        · rw [show pick genOps (rnd (genExprA rnd (depth - 1) (k + 1)).2) = "-" from hop]
          have hlist : ("(" ++ (genExpr rnd (depth - 1) (k + 1)).1 ++ " " ++ "-" ++ " " ++
              (genExpr rnd (depth - 1) ((genExprA rnd (depth - 1) (k + 1)).2 + 1)).1 ++ ")").toList ++ rest =
              ['('] ++ ((genExpr rnd (depth - 1) (k + 1)).1.toList ++
                ' ' :: '-' :: ' ' :: ((genExpr rnd (depth - 1) ((genExprA rnd (depth - 1) (k + 1)).2 + 1)).1.toList ++ ')' :: rest)) := by
            simp [toList_append, show ("(" : String).toList = ['('] from rfl,
              show (")" : String).toList = [')'] from rfl,
              show (" " : String).toList = [' '] from rfl,
              show ("-" : String).toList = ['-'] from rfl]
          rw [hlist,
            tokenizePart_spec ['('] none [.lpar] none (by decide) _,
            htok1 _ (soft_space _), tokenize_def,
            show (' ' :: '-' :: ' ' :: ((genExpr rnd (depth - 1) ((genExprA rnd (depth - 1) (k + 1)).2 + 1)).1.toList ++ ')' :: rest)) =
              [' ', '-', ' '] ++ ((genExpr rnd (depth - 1) ((genExprA rnd (depth - 1) (k + 1)).2 + 1)).1.toList ++ ')' :: rest) from rfl,
            tokenizePart_spec [' ', '-', ' '] none [.minus] none (by decide) _,
            htok2 _ (soft_rpar _), tokenize_def,
            show (')' :: rest) = [')'] ++ rest from rfl,
            tokenizePart_spec [')'] none [.rpar] none (by decide) _]
          simp only [genToks, opTok, Option.map_map, tokenize_def]
          cases tokenizeAux none rest <;> simp [Function.comp]
        · rw [show pick genOps (rnd (genExprA rnd (depth - 1) (k + 1)).2) = "*" from hop]
          have hlist : ("(" ++ (genExpr rnd (depth - 1) (k + 1)).1 ++ " " ++ "*" ++ " " ++
              (genExpr rnd (depth - 1) ((genExprA rnd (depth - 1) (k + 1)).2 + 1)).1 ++ ")").toList ++ rest =
              ['('] ++ ((genExpr rnd (depth - 1) (k + 1)).1.toList ++
                ' ' :: '*' :: ' ' :: ((genExpr rnd (depth - 1) ((genExprA rnd (depth - 1) (k + 1)).2 + 1)).1.toList ++ ')' :: rest)) := by
            simp [toList_append, show ("(" : String).toList = ['('] from rfl,
              show (")" : String).toList = [')'] from rfl,
              show (" " : String).toList = [' '] from rfl,
              show ("*" : String).toList = ['*'] from rfl]
          rw [hlist,
            tokenizePart_spec ['('] none [.lpar] none (by decide) _,
            htok1 _ (soft_space _), tokenize_def,
            show (' ' :: '*' :: ' ' :: ((genExpr rnd (depth - 1) ((genExprA rnd (depth - 1) (k + 1)).2 + 1)).1.toList ++ ')' :: rest)) =
              [' ', '*', ' '] ++ ((genExpr rnd (depth - 1) ((genExprA rnd (depth - 1) (k + 1)).2 + 1)).1.toList ++ ')' :: rest) from rfl,
            tokenizePart_spec [' ', '*', ' '] none [.star] none (by decide) _,
            htok2 _ (soft_rpar _), tokenize_def,
            show (')' :: rest) = [')'] ++ rest from rfl,
            tokenizePart_spec [')'] none [.rpar] none (by decide) _]
          simp only [genToks, opTok, Option.map_map, tokenize_def]
          cases tokenizeAux none rest <;> simp [Function.comp]
      · by_cases ht2 : rnd k < 3 / 5
        · rw [if_neg ht1, if_pos ht2, if_neg ht1, if_pos ht2]
          dsimp only
          obtain ⟨hpos1, hok1, htok1⟩ := ih (depth - 1) hdn1 (k + 2)
          have hfn : pick genFuncs (rnd (k + 1)) ∈ genFuncs :=
            pick_mem _ _ (by simp [genFuncs]) (hr _).1 (hr _).2
          refine ⟨hpos1, ⟨hfn, hok1⟩, fun rest hsoft => ?_⟩
          simp only [genFuncs, List.mem_cons, List.mem_singleton, List.not_mem_nil,
            or_false] at hfn
          rcases hfn with hfn | hfn | hfn | hfn
          · rw [show pick genFuncs (rnd (k + 1)) = "sin" from hfn]
            have hlist : ("sin" ++ "(" ++ (genExpr rnd (depth - 1) (k + 2)).1 ++ ")").toList ++ rest =
                ['s', 'i', 'n', '('] ++ ((genExpr rnd (depth - 1) (k + 2)).1.toList ++ ')' :: rest) := by
              simp [toList_append, show ("sin" : String).toList = ['s', 'i', 'n'] from rfl,
                show ("(" : String).toList = ['('] from rfl,
                show (")" : String).toList = [')'] from rfl]
            rw [hlist,
              tokenizePart_spec ['s', 'i', 'n', '('] none [.ident "sin", .lpar] none
                (by decide) _,
              htok1 _ (soft_rpar _), tokenize_def,
              show (')' :: rest) = [')'] ++ rest from rfl,
              tokenizePart_spec [')'] none [.rpar] none (by decide) _]
            simp only [genToks, Option.map_map, tokenize_def]
            cases tokenizeAux none rest <;> simp [Function.comp]
          · rw [show pick genFuncs (rnd (k + 1)) = "cos" from hfn]
            have hlist : ("cos" ++ "(" ++ (genExpr rnd (depth - 1) (k + 2)).1 ++ ")").toList ++ rest =
                ['c', 'o', 's', '('] ++ ((genExpr rnd (depth - 1) (k + 2)).1.toList ++ ')' :: rest) := by
              simp [toList_append, show ("cos" : String).toList = ['c', 'o', 's'] from rfl,
                show ("(" : String).toList = ['('] from rfl,
                show (")" : String).toList = [')'] from rfl]
            rw [hlist,
              tokenizePart_spec ['c', 'o', 's', '('] none [.ident "cos", .lpar] none
                (by decide) _,
              htok1 _ (soft_rpar _), tokenize_def,
              show (')' :: rest) = [')'] ++ rest from rfl,
              tokenizePart_spec [')'] none [.rpar] none (by decide) _]
            simp only [genToks, Option.map_map, tokenize_def]
            cases tokenizeAux none rest <;> simp [Function.comp]
          · rw [show pick genFuncs (rnd (k + 1)) = "abs" from hfn]
            have hlist : ("abs" ++ "(" ++ (genExpr rnd (depth - 1) (k + 2)).1 ++ ")").toList ++ rest =
                ['a', 'b', 's', '('] ++ ((genExpr rnd (depth - 1) (k + 2)).1.toList ++ ')' :: rest) := by
              simp [toList_append, show ("abs" : String).toList = ['a', 'b', 's'] from rfl,
                show ("(" : String).toList = ['('] from rfl,
                show (")" : String).toList = [')'] from rfl]
            rw [hlist,
              tokenizePart_spec ['a', 'b', 's', '('] none [.ident "abs", .lpar] none
                (by decide) _,
              htok1 _ (soft_rpar _), tokenize_def,
              show (')' :: rest) = [')'] ++ rest from rfl,
              tokenizePart_spec [')'] none [.rpar] none (by decide) _]
            simp only [genToks, Option.map_map, tokenize_def]
            cases tokenizeAux none rest <;> simp [Function.comp]
          · rw [show pick genFuncs (rnd (k + 1)) = "floor" from hfn]
            have hlist : ("floor" ++ "(" ++ (genExpr rnd (depth - 1) (k + 2)).1 ++ ")").toList ++ rest =
                ['f', 'l', 'o', 'o', 'r', '('] ++ ((genExpr rnd (depth - 1) (k + 2)).1.toList ++ ')' :: rest) := by
              simp [toList_append, show ("floor" : String).toList = ['f', 'l', 'o', 'o', 'r'] from rfl,
                show ("(" : String).toList = ['('] from rfl,
                show (")" : String).toList = [')'] from rfl]
            rw [hlist,
              tokenizePart_spec ['f', 'l', 'o', 'o', 'r', '('] none [.ident "floor", .lpar] none
                (by decide) _,
              htok1 _ (soft_rpar _), tokenize_def,
              show (')' :: rest) = [')'] ++ rest from rfl,
              tokenizePart_spec [')'] none [.rpar] none (by decide) _]
            simp only [genToks, Option.map_map, tokenize_def]
            cases tokenizeAux none rest <;> simp [Function.comp]
        · rw [if_neg ht1, if_neg ht2, if_neg ht1, if_neg ht2]
          dsimp only
          have hnn : pick genNoise (rnd (k + 1)) ∈ genNoise :=
            pick_mem _ _ (by simp [genNoise]) (hr _).1 (hr _).2
          refine ⟨rfl, hnn, fun rest hsoft => ?_⟩
          have hv05 : numValFrac ['0'] ['0', '5'] = 1 / 20 := by
            rw [numValFrac_eq, show digitsToNat ['0'] = 0 from rfl,
              show digitsToNat ['0', '5'] = 5 from rfl]
            norm_num
          have hv0 : ((digitsToNat ['0'] : ℕ) : ℚ) = 0 := by
            rw [show digitsToNat ['0'] = 0 from rfl]
            norm_num
          have hv10 : ((digitsToNat ['1', '0'] : ℕ) : ℚ) = 10 := by
            rw [show digitsToNat ['1', '0'] = 10 from rfl]
            norm_num
          simp only [genNoise, List.mem_cons, List.mem_singleton, List.not_mem_nil,
            or_false] at hnn
          rcases hnn with hnn | hnn
          · rw [show pick genNoise (rnd (k + 1)) = "simplex" from hnn]
            have hlist : (("simplex" ++ "(x*0.05, 0, z*0.05) * 10") : String).toList ++ rest =
                ['s', 'i', 'm', 'p', 'l', 'e', 'x', '(', 'x', '*', '0', '.', '0', '5', ',', ' ', '0', ',', ' ', 'z', '*', '0', '.', '0', '5', ')', ' ', '*', ' ', '1', '0'] ++ rest := by
              simp [toList_append,
                show ("simplex" : String).toList = ['s', 'i', 'm', 'p', 'l', 'e', 'x'] from rfl,
                show ("(x*0.05, 0, z*0.05) * 10" : String).toList = ['(', 'x', '*', '0', '.', '0', '5', ',', ' ', '0', ',', ' ', 'z', '*', '0', '.', '0', '5', ')', ' ', '*', ' ', '1', '0'] from rfl]
            rw [hlist,
              tokenizePart_spec ['s', 'i', 'm', 'p', 'l', 'e', 'x', '(', 'x', '*', '0', '.', '0', '5', ',', ' ', '0', ',', ' ', 'z', '*', '0', '.', '0', '5', ')', ' ', '*', ' ', '1', '0'] none
                [.ident "simplex", .lpar, .ident "x", .star,
                  .num (numValFrac ['0'] ['0', '5']), .comma, .num (digitsToNat ['0']),
                  .comma, .ident "z", .star, .num (numValFrac ['0'] ['0', '5']), .rpar,
                  .star] (some (.numInt ['1', '0'])) (by rfl) _,
              tokAux_flush_soft _ _ hsoft]
            simp only [genToks, flushPart, Option.map_map, tokenize_def]
            cases tokenizeAux none rest <;> simp [Function.comp, hv05, hv0, hv10]
          · rw [show pick genNoise (rnd (k + 1)) = "octaved" from hnn]
            have hlist : (("octaved" ++ "(x*0.05, 0, z*0.05) * 10") : String).toList ++ rest =
                ['o', 'c', 't', 'a', 'v', 'e', 'd', '(', 'x', '*', '0', '.', '0', '5', ',', ' ', '0', ',', ' ', 'z', '*', '0', '.', '0', '5', ')', ' ', '*', ' ', '1', '0'] ++ rest := by
              simp [toList_append,
                show ("octaved" : String).toList = ['o', 'c', 't', 'a', 'v', 'e', 'd'] from rfl,
                show ("(x*0.05, 0, z*0.05) * 10" : String).toList = ['(', 'x', '*', '0', '.', '0', '5', ',', ' ', '0', ',', ' ', 'z', '*', '0', '.', '0', '5', ')', ' ', '*', ' ', '1', '0'] from rfl]
            rw [hlist,
              tokenizePart_spec ['o', 'c', 't', 'a', 'v', 'e', 'd', '(', 'x', '*', '0', '.', '0', '5', ',', ' ', '0', ',', ' ', 'z', '*', '0', '.', '0', '5', ')', ' ', '*', ' ', '1', '0'] none
                [.ident "octaved", .lpar, .ident "x", .star,
                  .num (numValFrac ['0'] ['0', '5']), .comma, .num (digitsToNat ['0']),
                  .comma, .ident "z", .star, .num (numValFrac ['0'] ['0', '5']), .rpar,
                  .star] (some (.numInt ['1', '0'])) (by rfl) _,
              tokAux_flush_soft _ _ hsoft]
            simp only [genToks, flushPart, Option.map_map, tokenize_def]
            cases tokenizeAux none rest <;> simp [Function.comp, hv05, hv0, hv10]

/-! ### Plain views of the parser (subtype components projected away) -/

def pFactor (ts : List Tok) : Option (FExpr × List Tok) :=
  (parseFactorT ts).map (fun p => (p.1, p.2.val))

def pTerm (ts : List Tok) : Option (FExpr × List Tok) :=
  (parseTermT ts).map (fun p => (p.1, p.2.val))

def pTermLoop (acc : FExpr) (ts : List Tok) : Option (FExpr × List Tok) :=
  (parseTermLoopT acc ts).map (fun p => (p.1, p.2.val))

def pExpr (ts : List Tok) : Option (FExpr × List Tok) :=
  (parseExprT ts).map (fun p => (p.1, p.2.val))

def pExprLoop (acc : FExpr) (ts : List Tok) : Option (FExpr × List Tok) :=
  (parseExprLoopT acc ts).map (fun p => (p.1, p.2.val))

def pArgs (ts : List Tok) : Option (List FExpr × List Tok) :=
  (parseArgsT ts).map (fun p => (p.1, p.2.val))

def pArgsLoop (acc : List FExpr) (ts : List Tok) : Option (List FExpr × List Tok) :=
  (parseArgsLoopT acc ts).map (fun p => (p.1, p.2.val))

lemma pFactor_num (q : ℚ) (rest : List Tok) :
    pFactor (.num q :: rest) = some (.num q, rest) := by
  simp [pFactor, parseFactorT]

lemma pFactor_var_star (n : String) (rest : List Tok) :
    pFactor (.ident n :: .star :: rest) = some (.var n, .star :: rest) := by
  simp [pFactor, parseFactorT]

lemma pFactor_call (n : String) (rest : List Tok) :
    pFactor (.ident n :: .lpar :: rest) =
      (pArgs rest).map (fun p => (.call n p.1, p.2)) := by
  rw [pFactor, pArgs, parseFactorT]
  rcases parseArgsT rest with _ | ⟨args, ⟨rest2, h⟩⟩ <;> simp

lemma pFactor_paren (rest : List Tok) :
    pFactor (.lpar :: rest) =
      match pExpr rest with
      | some (e, .rpar :: rest2) => some (e, rest2)
      | _ => none := by
  rw [pFactor, pExpr, parseFactorT]
  rcases parseExprT rest with _ | ⟨e, ⟨ts1, h⟩⟩
  · simp
  · rcases ts1 with _ | ⟨t, ts2⟩
    · simp
    · cases t <;> simp

lemma pTerm_eq (ts : List Tok) :
    pTerm ts =
      match pFactor ts with
      | some (t, ts1) => pTermLoop t ts1
      | none => none := by
  simp only [pTerm, pFactor, pTermLoop, parseTermT]
  rcases parseFactorT ts with _ | ⟨t, ⟨ts1, h1⟩⟩
  · simp
  · simp only [Option.map]
    rcases parseTermLoopT t ts1 with _ | ⟨e, ⟨ts2, h2⟩⟩ <;> simp

lemma pExpr_eq (ts : List Tok) :
    pExpr ts =
      match pTerm ts with
      | some (t, ts1) => pExprLoop t ts1
      | none => none := by
  simp only [pExpr, pTerm, pExprLoop, parseExprT]
  rcases parseTermT ts with _ | ⟨t, ⟨ts1, h1⟩⟩
  · simp
  · simp only [Option.map]
    rcases parseExprLoopT t ts1 with _ | ⟨e, ⟨ts2, h2⟩⟩ <;> simp

lemma pArgs_eq (ts : List Tok) :
    pArgs ts =
      match pExpr ts with
      | some (e, ts1) => pArgsLoop [e] ts1
      | none => none := by
  simp only [pArgs, pExpr, pArgsLoop, parseArgsT]
  rcases parseExprT ts with _ | ⟨e, ⟨ts1, h1⟩⟩
  · simp
  · simp only [Option.map]
    rcases parseArgsLoopT [e] ts1 with _ | ⟨args, ⟨ts2, h2⟩⟩ <;> simp

/-- Heads on which the term loop keeps consuming. -/
def headNotMul : List Tok → Prop
  | .star :: _ => False
  | .slash :: _ => False
  | _ => True

/-- Heads on which the expression loop keeps consuming. -/
def headNotAdd : List Tok → Prop
  | .plus :: _ => False
  | .minus :: _ => False
  | _ => True

lemma pTermLoop_stop (acc : FExpr) (ts : List Tok) (h : headNotMul ts) :
    pTermLoop acc ts = some (acc, ts) := by
  rcases ts with _ | ⟨t, ts1⟩
  · simp [pTermLoop, parseTermLoopT]
  · cases t <;> first
      | exact h.elim
      | simp [pTermLoop, parseTermLoopT]

lemma pExprLoop_stop (acc : FExpr) (ts : List Tok) (h : headNotAdd ts) :
    pExprLoop acc ts = some (acc, ts) := by
  rcases ts with _ | ⟨t, ts1⟩
  · simp [pExprLoop, parseExprLoopT]
  · cases t <;> first
      | exact h.elim
      | simp [pExprLoop, parseExprLoopT]

lemma pTermLoop_star (acc : FExpr) (ts : List Tok) :
    pTermLoop acc (.star :: ts) =
      match pFactor ts with
      | some (t, ts2) => pTermLoop (.bin .mul acc t) ts2
      | none => none := by
  simp only [pTermLoop, pFactor, parseTermLoopT]
  rcases parseFactorT ts with _ | ⟨t, ⟨ts2, h2⟩⟩
  · simp
  · simp only [Option.map]
    rcases parseTermLoopT (.bin .mul acc t) ts2 with _ | ⟨e, ⟨ts3, h3⟩⟩ <;> simp

lemma pExprLoop_plus (acc : FExpr) (ts : List Tok) :
    pExprLoop acc (.plus :: ts) =
      match pTerm ts with
      | some (t, ts2) => pExprLoop (.bin .add acc t) ts2
      | none => none := by
  simp only [pExprLoop, pTerm, parseExprLoopT]
  rcases parseTermT ts with _ | ⟨t, ⟨ts2, h2⟩⟩
  · simp
  · simp only [Option.map]
    rcases parseExprLoopT (.bin .add acc t) ts2 with _ | ⟨e, ⟨ts3, h3⟩⟩ <;> simp

lemma pExprLoop_minus (acc : FExpr) (ts : List Tok) :
    pExprLoop acc (.minus :: ts) =
      match pTerm ts with
      | some (t, ts2) => pExprLoop (.bin .sub acc t) ts2
      | none => none := by
  simp only [pExprLoop, pTerm, parseExprLoopT]
  rcases parseTermT ts with _ | ⟨t, ⟨ts2, h2⟩⟩
  · simp
  · simp only [Option.map]
    rcases parseExprLoopT (.bin .sub acc t) ts2 with _ | ⟨e, ⟨ts3, h3⟩⟩ <;> simp

lemma pArgsLoop_rpar (acc : List FExpr) (rest : List Tok) :
    pArgsLoop acc (.rpar :: rest) = some (acc.reverse, rest) := by
  simp [pArgsLoop, parseArgsLoopT]

lemma pArgsLoop_comma (acc : List FExpr) (ts : List Tok) :
    pArgsLoop acc (.comma :: ts) =
      match pExpr ts with
      | some (e, ts2) => pArgsLoop (e :: acc) ts2
      | none => none := by
  simp only [pArgsLoop, pExpr, parseArgsLoopT]
  rcases parseExprT ts with _ | ⟨e, ⟨ts2, h2⟩⟩
  · simp
  · simp only [Option.map]
    rcases parseArgsLoopT (e :: acc) ts2 with _ | ⟨args, ⟨ts3, h3⟩⟩ <;> simp

/-! ### Every generated shape parses -/

lemma opTok_plus : opTok "+" = .plus := rfl

lemma opTok_minus : opTok "-" = .minus := rfl

lemma opTok_star : opTok "*" = .star := rfl

lemma genAst_parse (g : GenAst) (hok : GAok g) :
    (∀ rest, ∃ t, pTerm (genToks g ++ rest) = pTermLoop t rest) ∧
    (∀ acc rest, ∃ t, pTermLoop acc (.star :: (genToks g ++ rest)) = pTermLoop t rest) := by
  induction g with
  | coordTerm isX v =>
    constructor
    · intro rest
      simp only [genToks, List.cons_append, List.nil_append]
      rw [pTerm_eq, pFactor_var_star]
      dsimp only
      rw [pTermLoop_star, pFactor_num]
      dsimp only
      exact ⟨_, rfl⟩
    · intro acc rest
      simp only [genToks, List.cons_append, List.nil_append]
      rw [pTermLoop_star, pFactor_var_star]
      dsimp only
      rw [pTermLoop_star, pFactor_num]
      dsimp only
      exact ⟨_, rfl⟩
  | numLit v =>
    constructor
    · intro rest
      simp only [genToks, List.cons_append, List.nil_append]
      rw [pTerm_eq, pFactor_num]
      dsimp only
      exact ⟨_, rfl⟩
    · intro acc rest
      simp only [genToks, List.cons_append, List.nil_append]
      rw [pTermLoop_star, pFactor_num]
      dsimp only
      exact ⟨_, rfl⟩
  | binComb a op b iha ihb =>
    obtain ⟨hop, hoka, hokb⟩ := hok
    obtain ⟨hAa, hBa⟩ := iha hoka
    obtain ⟨hAb, hBb⟩ := ihb hokb
    have hfac : ∀ rest, ∃ e,
        pFactor (genToks (.binComb a op b) ++ rest) = some (e, rest) := by
      intro rest
      simp only [genToks, List.cons_append, List.append_assoc, List.singleton_append,
        List.nil_append]
      rw [pFactor_paren]
      simp only [genOps, List.mem_cons, List.not_mem_nil, or_false] at hop
      rcases hop with h | h | h <;> subst h
      · rw [opTok_plus]
        obtain ⟨t1, ht1⟩ := hAa (.plus :: (genToks b ++ .rpar :: rest))
        rw [pExpr_eq, ht1, pTermLoop_stop _ _ (by trivial)]
        dsimp only
        rw [pExprLoop_plus]
        obtain ⟨t2, ht2⟩ := hAb (.rpar :: rest)
        rw [ht2, pTermLoop_stop _ _ (by trivial)]
        dsimp only
        rw [pExprLoop_stop _ _ (by trivial)]
        dsimp only
        exact ⟨_, rfl⟩
      · rw [opTok_minus]
        obtain ⟨t1, ht1⟩ := hAa (.minus :: (genToks b ++ .rpar :: rest))
        rw [pExpr_eq, ht1, pTermLoop_stop _ _ (by trivial)]
        dsimp only
        rw [pExprLoop_minus]
        obtain ⟨t2, ht2⟩ := hAb (.rpar :: rest)
        rw [ht2, pTermLoop_stop _ _ (by trivial)]
        dsimp only
        rw [pExprLoop_stop _ _ (by trivial)]
        dsimp only
        exact ⟨_, rfl⟩
      · rw [opTok_star]
        obtain ⟨t1, ht1⟩ := hAa (.star :: (genToks b ++ .rpar :: rest))
        obtain ⟨t2, ht2⟩ := hBb t1 (.rpar :: rest)
        rw [pExpr_eq, ht1, ht2, pTermLoop_stop _ _ (by trivial)]
        dsimp only
        rw [pExprLoop_stop _ _ (by trivial)]
        dsimp only
        exact ⟨_, rfl⟩
    constructor
    · intro rest
      obtain ⟨e, he⟩ := hfac rest
      rw [pTerm_eq, he]
      dsimp only
      exact ⟨_, rfl⟩
    · intro acc rest
      obtain ⟨e, he⟩ := hfac rest
      rw [pTermLoop_star, he]
      dsimp only
      exact ⟨_, rfl⟩
  | funWrap f a iha =>
    obtain ⟨hf, hoka⟩ := hok
    obtain ⟨hAa, hBa⟩ := iha hoka
    have hfac : ∀ rest, ∃ e,
        pFactor (genToks (.funWrap f a) ++ rest) = some (e, rest) := by
      intro rest
      simp only [genToks, List.cons_append, List.append_assoc, List.singleton_append,
        List.nil_append]
      rw [pFactor_call, pArgs_eq]
      obtain ⟨t1, ht1⟩ := hAa (.rpar :: rest)
      rw [pExpr_eq, ht1, pTermLoop_stop _ _ (by trivial)]
      dsimp only
      rw [pExprLoop_stop _ _ (by trivial)]
      dsimp only
      rw [pArgsLoop_rpar]
      exact ⟨_, rfl⟩
    constructor
    · intro rest
      obtain ⟨e, he⟩ := hfac rest
      rw [pTerm_eq, he]
      dsimp only
      exact ⟨_, rfl⟩
    · intro acc rest
      obtain ⟨e, he⟩ := hfac rest
      rw [pTermLoop_star, he]
      dsimp only
      exact ⟨_, rfl⟩
  | noiseCall n =>
    have hfac : ∀ rest, ∃ e ts2,
        pFactor (genToks (.noiseCall n) ++ rest) = some (e, ts2) ∧
          ts2 = .star :: .num 10 :: rest := by
      intro rest
      simp only [genToks, List.cons_append, List.nil_append]
      rw [pFactor_call, pArgs_eq]
      rw [pExpr_eq, pTerm_eq, pFactor_var_star]
      dsimp only
      rw [pTermLoop_star, pFactor_num]
      dsimp only
      rw [pTermLoop_stop _ _ (by trivial)]
      dsimp only
      rw [pExprLoop_stop _ _ (by trivial)]
      dsimp only
      rw [pArgsLoop_comma]
      rw [pExpr_eq, pTerm_eq, pFactor_num]
      dsimp only
      rw [pTermLoop_stop _ _ (by trivial)]
      dsimp only
      rw [pExprLoop_stop _ _ (by trivial)]
      dsimp only
      rw [pArgsLoop_comma]
      rw [pExpr_eq, pTerm_eq, pFactor_var_star]
      dsimp only
      rw [pTermLoop_star, pFactor_num]
      dsimp only
      rw [pTermLoop_stop _ _ (by trivial)]
      dsimp only
      rw [pExprLoop_stop _ _ (by trivial)]
      dsimp only
      rw [pArgsLoop_rpar]
      exact ⟨_, _, rfl, rfl⟩
    constructor
    · intro rest
      obtain ⟨e, ts2, he, hts⟩ := hfac rest
      subst hts
      rw [pTerm_eq, he]
      dsimp only
      rw [pTermLoop_star, pFactor_num]
      dsimp only
      exact ⟨_, rfl⟩
    · intro acc rest
      obtain ⟨e, ts2, he, hts⟩ := hfac rest
      subst hts
      rw [pTermLoop_star, he]
      dsimp only
      rw [pTermLoop_star, pFactor_num]
      dsimp only
      exact ⟨_, rfl⟩

lemma genAst_pExpr (g : GenAst) (hok : GAok g) :
    ∃ t, pExpr (genToks g) = some (t, []) := by
  obtain ⟨hA, -⟩ := genAst_parse g hok
  obtain ⟨t, ht⟩ := hA []
  rw [List.append_nil] at ht
  refine ⟨t, ?_⟩
  rw [pExpr_eq, ht, pTermLoop_stop _ _ (by trivial)]
  dsimp only
  rw [pExprLoop_stop _ _ (by trivial)]

lemma parseFormula_of_genToks (s : String) (g : GenAst)
    (htok : tokenize s.toList = some (genToks g)) (hok : GAok g) :
    (parseFormula s).isSome := by
  obtain ⟨t, ht⟩ := genAst_pExpr g hok
  rw [pExpr] at ht
  rw [parseFormula, htok]
  dsimp only
  rcases hp : parseExprT (genToks g) with _ | ⟨e, rest, hlt⟩
  · rw [hp] at ht
    simp at ht
  · rw [hp] at ht
    simp only [Option.map, Option.some.injEq, Prod.mk.injEq] at ht
    obtain ⟨h1, h2⟩ := ht
    subst h2
    rfl

/-- **C9** — `Generator.genExpr` (src/script.js lines 119-129) is total by
construction (it is a Lean `def`, terminating on the `depth` budget), and
for every depth budget, every starting stream position and every stream of
random draws in `[0,1)`, the text it returns is syntactically valid for
the formula engine: tokenizing and parsing it succeeds with no token left
over. -/
theorem generated_formula_parses (rnd : ℕ → ℚ)
    (hr : ∀ i, 0 ≤ rnd i ∧ rnd i < 1) (depth : ℤ) (k : ℕ) :
    (parseFormula (genExpr rnd depth k).1).isSome := by
  obtain ⟨-, hok, htok⟩ := genExpr_spec rnd hr depth.toNat depth le_rfl k
  have h := htok [] (Or.inl rfl)
  rw [List.append_nil] at h
  have htz : tokenize ((genExpr rnd depth k).1).toList
      = some (genToks (genExprA rnd depth k).1) := by
    rw [tokenize_def, h]
    show some (genToks (genExprA rnd depth k).1 ++ []) = _
    rw [List.append_nil]
  exact parseFormula_of_genToks _ _ htz hok

/-- Witness for C9: with the all-zero stream of draws, depth 0 and
starting position 0, the generated text parses. -/
theorem generated_formula_parses_witness :
    (parseFormula (genExpr (fun _ => 0) 0 0).1).isSome :=
  generated_formula_parses (fun _ => 0)
    (fun _ => ⟨le_refl 0, zero_lt_one⟩) 0 0
